import Mathlib

/-!
# OvenMediaEngine: the transcoder filter stage, the AAC decode stage and the HLS media playlist

A shallow embedding of

* `src/projects/transcoder/transcoder_filter.cpp` (`TranscodeFilter`),
* `src/projects/transcoder/codec/decoder/decoder_aac.cpp` (`DecoderAAC`), and
* `src/projects/publishers/hls/hls_media_playlist.cpp` (`HlsMediaPlaylist`),

followed by theorems about them.

Conventions.  The filter engine (`FilterResampler` / `FilterRescaler`), the
bitstream parser and the codec session are external collaborators: every answer
they give is an input of the model (a field of the engine handle, of the
engine factory, or of the per-iteration `Answers` record), so each theorem
holds for all behaviours of the collaborators.  Every call made on an engine
is appended, in program order, to the ghost field `trace`.  Machine integers
are mathematical integers; where the program computes with `int64_t`, the
two's-complement result is taken with `wrap64`.
-/

namespace OvenMediaEngine

/-! ## Machine integers -/

/-- The constant `INT64_MIN` (also the value of `AV_NOPTS_VALUE`). -/
def INT64_MIN : Int := -(2 ^ 63)

/-- The constant `INT64_MAX`. -/
def INT64_MAX : Int := 2 ^ 63 - 1

/-- The two's-complement value of an `int64_t` result `x`. -/
def wrap64 (x : Int) : Int := (x + 2 ^ 63) % 2 ^ 64 - 2 ^ 63

/-- The call `abs(x)` on an `int64_t`. -/
def abs64 (x : Int) : Int := wrap64 (if x < 0 then -x else x)

/-! ## Data model of the filter stage -/

/-- Modelled from the spec: `cmn::MediaType` is declared outside `src/`; a track
is audio or video, and every other media type is unsupported by the filter. -/
inductive MediaType where
  | Unknown
  | Video
  | Audio
  | Data
  deriving DecidableEq, Repr

/-- Modelled from the spec: `cmn::MediaCodecModuleId` is declared outside `src/`;
the filter only compares the identity tag with `XMA`. -/
inductive MediaCodecModuleId where
  | DEFAULT
  | NVENC
  | XMA
  deriving DecidableEq, Repr

/-- Modelled from the spec: `FilterBase::State` is declared outside `src/`; the
engine health is `Normal` or `Error`. -/
inductive FilterState where
  | NORMAL
  | ERROR
  deriving DecidableEq, Repr

/-- The track descriptor (`MediaTrack`).  `timescale` is the value of
`(int64_t)GetTimeBase().GetTimescale()`. -/
structure MediaTrack where
  id : Nat
  media_type : MediaType
  timescale : Int
  width : Int
  height : Int
  codec_module_id : MediaCodecModuleId
  deriving DecidableEq, Repr

/-- A decoded frame (`MediaFrame`): the attributes the two stages read. -/
structure MediaFrame where
  pts : Int
  duration : Int
  width : Int
  height : Int
  deriving DecidableEq, Repr

/-- The two engine kinds built by `CreateInternal`. -/
inductive EngineKind where
  | FilterResampler
  | FilterRescaler
  deriving DecidableEq, Repr

/-- What an engine instance answers when asked: `IsSingleTrack()`,
`(int32_t)GetInputWidth()`, `(int32_t)GetInputHeight()`, `GetState()`, the
result of `Start()` and the result of `SendBuffer()`. -/
structure EngineAnswers where
  single_track : Bool
  input_width : Int
  input_height : Int
  state : FilterState
  start_result : Bool
  send_result : Bool
  deriving DecidableEq, Repr

/-- A filter engine handle (`std::shared_ptr<FilterBase>`): the identity of the
instance (the number of engines constructed before it) and its answers. -/
structure FilterBase where
  id : Nat
  answers : EngineAnswers
  deriving DecidableEq, Repr

/-- The engine factory: the answers of the `n`-th engine ever constructed, given
its kind. -/
abbrev World := Nat → EngineKind → EngineAnswers

/-- The calls the filter stage makes on its collaborators, and its log lines. -/
inductive Event where
  /-- An engine is constructed: `std::make_shared<FilterResampler/FilterRescaler>()`. -/
  | Create (id : Nat) (kind : EngineKind)
  /-- The calls `SetInputTrack(_input_track)` and `SetOutputTrack(_output_track)`. -/
  | SetTracks (id : Nat) (input output : MediaTrack)
  /-- The call `_internal->Start()` and its result. -/
  | Start (id : Nat) (ok : Bool)
  /-- The call `_internal->Stop()`. -/
  | Stop (id : Nat)
  /-- The handle is dropped: `_internal.reset()`. -/
  | Release (id : Nat)
  /-- The call `_internal->SendBuffer(buffer)`. -/
  | Send (id : Nat) (buffer : MediaFrame)
  /-- The warning "The timestamp has changed unexpectedly". -/
  | LogTimestampJump (last curr : Int)
  /-- The message "Changed input resolution". -/
  | LogResolutionChange (width height : Int)
  /-- The warning "It is assumed that the XMA resource allocation failed". -/
  | LogXmaRecreate
  /-- The error "Unsupported media type in filter". -/
  | LogUnsupportedMediaType
  /-- The error "Failed to regenerate filter". -/
  | LogRegenerateFailed
  deriving DecidableEq, Repr

/-- The filter stage (`TranscodeFilter`).  `engines_made` and `trace` are ghost
fields: the number of engines constructed so far, and the calls made so far in
program order. -/
structure TranscodeFilter where
  _id : Int
  _input_track : MediaTrack
  _output_track : MediaTrack
  _internal : Option FilterBase
  _last_timestamp : Int
  _timestamp_jump_threshold : Int
  engines_made : Nat
  trace : List Event
  deriving DecidableEq, Repr

/-- The macro `PTS_INCREMENT_LIMIT`. -/
def PTS_INCREMENT_LIMIT : Int := 15

/-- Modelled from the spec: the member initialisers of `TranscodeFilter` are in
the header, outside `src/`.  The constructor sets `_internal(nullptr)`;
`_last_timestamp` starts at the value `-1` that `IsNeedUpdate` tests for
"this is the first frame". -/
def TranscodeFilter.construct (input output : MediaTrack) : TranscodeFilter :=
  { _id := 0
    _input_track := input
    _output_track := output
    _internal := none
    _last_timestamp := -1
    _timestamp_jump_threshold := 0
    engines_made := 0
    trace := [] }

/-! ## Operations of the filter stage -/

/-- The first block of `CreateInternal`, also the body of `Stop`: stop and drop
the engine held, if any. -/
def TranscodeFilter.dropInternal (s : TranscodeFilter) : TranscodeFilter :=
  match s._internal with
  | some e => { s with _internal := none, trace := s.trace ++ [Event.Stop e.id, Event.Release e.id] }
  | none => s

/-- The tail of `CreateInternal` once the kind is chosen: construct the engine,
bind it to the tracks, start it, and return what `Start()` returned. -/
def TranscodeFilter.build (w : World) (s : TranscodeFilter) (kind : EngineKind) :
    Bool × TranscodeFilter :=
  let e : FilterBase := { id := s.engines_made, answers := w s.engines_made kind }
  (e.answers.start_result,
    { s with
      _internal := some e
      engines_made := s.engines_made + 1
      trace := s.trace ++ [Event.Create e.id kind,
        Event.SetTracks e.id s._input_track s._output_track,
        Event.Start e.id e.answers.start_result] })

/-- The method `TranscodeFilter::CreateInternal`. -/
def TranscodeFilter.CreateInternal (w : World) (s : TranscodeFilter) : Bool × TranscodeFilter :=
  let s1 := s.dropInternal
  match s1._input_track.media_type with
  | MediaType.Audio => s1.build w EngineKind.FilterResampler
  | MediaType.Video => s1.build w EngineKind.FilterRescaler
  | _ => (false, { s1 with trace := s1.trace ++ [Event.LogUnsupportedMediaType] })

/-- The method `TranscodeFilter::Configure`. -/
def TranscodeFilter.Configure (w : World) (s : TranscodeFilter) (id : Int)
    (input_track output_track : MediaTrack) : Bool × TranscodeFilter :=
  TranscodeFilter.CreateInternal w
    { s with
      _id := id
      _input_track := input_track
      _output_track := output_track
      _timestamp_jump_threshold := wrap64 (input_track.timescale * PTS_INCREMENT_LIMIT) }

/-- The method `TranscodeFilter::Stop`. -/
def TranscodeFilter.Stop (s : TranscodeFilter) : TranscodeFilter :=
  s.dropInternal

/-- The method `TranscodeFilter::Flush` ("Not implemented"). -/
def TranscodeFilter.Flush (s : TranscodeFilter) : TranscodeFilter :=
  s

/-- The local `is_abnormal` of `IsNeedUpdate` (check #1). -/
def is_abnormal (last_timestamp curr_timestamp threshold : Int) : Bool :=
  decide (last_timestamp ≠ -1) && decide (abs64 (wrap64 (curr_timestamp - last_timestamp)) > threshold)

/-- The method `TranscodeFilter::IsNeedUpdate`. -/
def TranscodeFilter.IsNeedUpdate (s : TranscodeFilter) (buffer : MediaFrame) :
    Bool × TranscodeFilter :=
  match s._internal with
  | none => (false, s)
  | some e =>
    if e.answers.single_track then (false, s)
    else
      let last_timestamp := s._last_timestamp
      let curr_timestamp := buffer.pts
      let s1 := { s with _last_timestamp := curr_timestamp }
      if is_abnormal last_timestamp curr_timestamp s._timestamp_jump_threshold then
        (true, { s1 with trace := s1.trace ++ [Event.LogTimestampJump last_timestamp curr_timestamp] })
      else if s1._input_track.media_type = MediaType.Video ∧
          (buffer.width ≠ e.answers.input_width ∨ buffer.height ≠ e.answers.input_height) then
        (true, { s1 with
          _input_track := { s1._input_track with width := buffer.width, height := buffer.height }
          trace := s1.trace ++ [Event.LogResolutionChange buffer.width buffer.height] })
      else if e.answers.state = FilterState.ERROR ∧
          s1._input_track.codec_module_id = MediaCodecModuleId.XMA ∧
          s1._output_track.codec_module_id = MediaCodecModuleId.XMA then
        (true, { s1 with trace := s1.trace ++ [Event.LogXmaRecreate] })
      else (false, s1)

/-- The method `TranscodeFilter::SendBuffer`. -/
def TranscodeFilter.SendBuffer (w : World) (s : TranscodeFilter) (buffer : MediaFrame) :
    Bool × TranscodeFilter :=
  let r := s.IsNeedUpdate buffer
  if r.1 then
    let c := r.2.CreateInternal w
    if c.1 = false then
      (false, { c.2 with trace := c.2.trace ++ [Event.LogRegenerateFailed] })
    else (true, c.2)
  else
    match r.2._internal with
    | none => (false, r.2)
    | some e => (e.answers.send_result, { r.2 with trace := r.2.trace ++ [Event.Send e.id buffer] })

/-- The engine worker runs on its own thread: between two calls of the stage it
may change what `GetState()` and `SendBuffer()` of the engine held answer. -/
def TranscodeFilter.engineReport (s : TranscodeFilter) (state : FilterState) (send_result : Bool) :
    TranscodeFilter :=
  match s._internal with
  | some e =>
    { s with _internal := some { e with answers := { e.answers with state := state, send_result := send_result } } }
  | none => s

/-- One step of the life of a filter stage: a call of one of its methods, or a
report of the engine worker. -/
inductive Op where
  | Configure (id : Int) (input_track output_track : MediaTrack)
  | SendBuffer (buffer : MediaFrame)
  | Stop
  | Flush
  | EngineReport (state : FilterState) (send_result : Bool)
  deriving DecidableEq, Repr

/-- The stage after one step. -/
def TranscodeFilter.step (w : World) (s : TranscodeFilter) : Op → TranscodeFilter
  | Op.Configure id i o => (s.Configure w id i o).2
  | Op.SendBuffer buffer => (s.SendBuffer w buffer).2
  | Op.Stop => s.Stop
  | Op.Flush => s.Flush
  | Op.EngineReport st ok => s.engineReport st ok

/-- The stage after a sequence of steps. -/
def TranscodeFilter.run (w : World) (s : TranscodeFilter) (ops : List Op) : TranscodeFilter :=
  ops.foldl (TranscodeFilter.step w) s

/-- The results of `SendBuffer` on a sequence of frames, and the stage after. -/
def TranscodeFilter.sendAll (w : World) (s : TranscodeFilter) :
    List MediaFrame → List Bool × TranscodeFilter
  | [] => ([], s)
  | f :: fs =>
    let r := s.SendBuffer w f
    let rest := TranscodeFilter.sendAll w r.2 fs
    (r.1 :: rest.1, rest.2)

/-! ## Data model of the decode stage -/

/-- The constant `AV_NOPTS_VALUE` of the codec library (`0x8000000000000000`). -/
def AV_NOPTS_VALUE : Int := INT64_MIN

/-- The constant `AVERROR(EAGAIN)`, that is `-EAGAIN`. -/
def AVERROR_EAGAIN : Int := -11

/-- The constant `AV_PKT_FLAG_KEY`. -/
def AV_PKT_FLAG_KEY : Int := 1

/-- A compressed packet from the input queue (`MediaPacket`): its payload
(`GetData()`, which may be null) and its PTS. -/
structure MediaPacket where
  data : Option (List Nat)
  pts : Int
  deriving DecidableEq, Repr

/-- The access unit handed to the codec session (`AVPacket`, the member `_pkt`). -/
structure AVPacket where
  data : List Nat
  size : Int
  pts : Int
  dts : Int
  flags : Int
  duration : Int
  deriving DecidableEq, Repr

/-- A decoded frame as the codec session delivers it (`AVFrame`). -/
structure AVFrame where
  pts : Int
  pkt_duration : Int
  deriving DecidableEq, Repr

/-- What `av_parser_parse2` answers: its return value, the access unit it
produced (`poutbuf`, `poutbuf_size`) and the parser fields read afterwards. -/
structure ParserAnswer where
  parsed_size : Int
  out_data : List Nat
  out_size : Int
  pts : Int
  dts : Int
  last_pts : Int
  key_frame : Int
  deriving DecidableEq, Repr

/-- What the collaborators answer during one iteration of the loop of
`CodecThread`: the input queue (`IsEmpty`, `Dequeue`), the parser,
`avcodec_send_packet`, `avcodec_receive_frame` with the PTS of the frame it
delivers, `GetDurationPerFrame`, and whether `ToMediaFrame` yields a frame. -/
structure Answers where
  queue_empty : Bool
  dequeued : Option (Option MediaPacket)
  parser : ParserAnswer
  send_ret : Int
  recv_ret : Int
  frame_pts : Int
  frame_duration : Int
  convert_ok : Bool
  deriving DecidableEq, Repr

/-- What the codec library answers during `InitCodec`. -/
structure InitAnswers where
  codec_found : Bool
  context_allocated : Bool
  open_ret : Int
  parser_found : Bool
  deriving DecidableEq, Repr

/-- The result tag passed to `Complete`. -/
inductive TranscodeResult where
  | DataReady
  | FormatChanged
  deriving DecidableEq, Repr

/-- The calls the decode stage makes on its collaborators, and its log lines. -/
inductive DecEvent where
  /-- The call `_input_buffer.Dequeue()` and what it returned. -/
  | Dequeue (got : Option (Option MediaPacket))
  /-- The call `av_parser_parse2` on the bytes of the current packet from the
  drain cursor on, with the PTS of the current packet. -/
  | Parse (input : List Nat) (pts : Int)
  /-- The error "Error while parsing". -/
  | LogParseError
  /-- The call `avcodec_send_packet(_codec_context, _pkt)` and its result. -/
  | SendPacket (pkt : AVPacket) (ret : Int)
  /-- The error "Error error occurred while sending a packet for decoding". -/
  | LogSendError (ret : Int)
  /-- The call `avcodec_receive_frame` and its result. -/
  | ReceiveFrame (ret : Int)
  /-- The error "Error receiving a packet for decoding". -/
  | LogReceiveError (ret : Int)
  /-- The message "input track information". -/
  | LogTrackInfo
  /-- The call `Complete(result, output_frame)`. -/
  | Complete (result : TranscodeResult) (frame : MediaFrame)
  deriving DecidableEq, Repr

/-- The decode stage (`DecoderAAC`): the members `CodecThread` reads and writes,
its local `no_data_to_encode`, and the ghost field `trace` (the calls made so
far, in program order). -/
structure DecoderAAC where
  _cur_pkt : Option MediaPacket
  _cur_data : Option (List Nat)
  _pkt_offset : Nat
  _pkt : AVPacket
  _first_pkt_pts : Int
  _last_pkt_pts : Int
  _last_pkt_duration : Int
  _change_format : Bool
  no_data_to_encode : Bool
  trace : List DecEvent
  deriving DecidableEq, Repr

/-! ## Operations of the decode stage -/

/-- Modelled from the spec: `ffmpeg::compat::ToMediaFrame` is outside `src/`.  It
turns the decoded frame into a media frame carrying the frame's PTS and
duration, or yields null when the conversion fails. -/
def ToMediaFrame (ok : Bool) (frame : AVFrame) : Option MediaFrame :=
  if ok then some { pts := frame.pts, duration := frame.pkt_duration, width := 0, height := 0 }
  else none

/-- The method `DecoderAAC::InitCodec`. -/
def DecoderAAC.InitCodec (d : DecoderAAC) (a : InitAnswers) : Bool × DecoderAAC :=
  if a.codec_found = false then (false, d)
  else if a.context_allocated = false then (false, d)
  else if a.open_ret < 0 then (false, d)
  else if a.parser_found = false then (false, d)
  else (true, { d with _change_format := false })

/-- The statement block at the end of the "Send to Decoder" part of the loop:
the current packet is released and the drain cursor reset. -/
def DecoderAAC.releasePacket (d : DecoderAAC) : DecoderAAC :=
  { d with _cur_pkt := none, _cur_data := none, _pkt_offset := 0 }

/-- Lines 67-87 of `CodecThread`: take the next packet from the queue when no
packet is being drained.  The result is `true` when the iteration ends here
(`continue`). -/
def DecoderAAC.dequeueSection (d : DecoderAAC) (a : Answers) : Bool × DecoderAAC :=
  if d._cur_pkt = none ∧ (a.queue_empty = false ∨ d.no_data_to_encode = true) then
    let d1 := { d with trace := d.trace ++ [DecEvent.Dequeue a.dequeued] }
    match a.dequeued with
    | none => (true, d1)
    | some obj =>
      let d2 := { d1 with no_data_to_encode := false, _cur_pkt := obj }
      let d3 :=
        match obj with
        | some p => { d2 with _cur_data := p.data, _pkt_offset := 0 }
        | none => d2
      match d3._cur_data with
      | none => (true, d3)
      | some data => if data.length = 0 then (true, d3) else (false, d3)
  else (false, d)

/-- Lines 116-146 of `CodecThread`: submit the access unit the parser produced. -/
def DecoderAAC.submitUnit (d : DecoderAAC) (a : Answers) : DecoderAAC :=
  if d._pkt.size > 0 then
    let pkt : AVPacket :=
      { d._pkt with
        pts := a.parser.pts
        dts := a.parser.dts
        flags := if a.parser.key_frame = 1 then AV_PKT_FLAG_KEY else 0
        duration :=
          if a.parser.pts ≠ AV_NOPTS_VALUE ∧ a.parser.last_pts ≠ AV_NOPTS_VALUE then
            wrap64 (a.parser.pts - a.parser.last_pts)
          else 0 }
    let d1 := { d with _pkt := pkt, trace := d.trace ++ [DecEvent.SendPacket pkt a.send_ret] }
    let d2 :=
      if a.send_ret = AVERROR_EAGAIN then d1
      else if a.send_ret < 0 then
        { d1 with _cur_data := none, trace := d1.trace ++ [DecEvent.LogSendError a.send_ret] }
      else d1
    if d2._first_pkt_pts = INT64_MIN then { d2 with _first_pkt_pts := pkt.pts } else d2
  else d

/-- Lines 91-114 of `CodecThread`: feed the parser with the bytes of the current
payload `data` from the drain cursor on; a non-positive result invalidates the
payload, a positive one advances the cursor (the `OV_ASSERT` that follows is a
diagnostic and changes no state).  `_cur_pkt` is not null whenever `_cur_data`
is not, see `DecoderAAC.Linked`; the PTS `0` stands for the unreachable other
case. -/
def DecoderAAC.feedParser (d : DecoderAAC) (a : Answers) (data : List Nat) : DecoderAAC :=
  let cur_pts := match d._cur_pkt with
    | some p => p.pts
    | none => 0
  let d2 :=
    { d with
      _pkt := { d._pkt with data := a.parser.out_data, size := a.parser.out_size }
      trace := d.trace ++ [DecEvent.Parse (data.drop d._pkt_offset) cur_pts] }
  if a.parser.parsed_size ≤ 0 then
    { d2 with _cur_data := none, trace := d2.trace ++ [DecEvent.LogParseError] }
  else { d2 with _pkt_offset := d2._pkt_offset + a.parser.parsed_size.toNat }

/-- Lines 149-154 of `CodecThread`: release the current packet when its payload
is invalid or drained. -/
def DecoderAAC.releaseIfDone (d : DecoderAAC) : DecoderAAC :=
  match d._cur_data with
  | none => d.releasePacket
  | some data => if data.length ≤ d._pkt_offset then d.releasePacket else d

/-- Lines 89-155 of `CodecThread`: when there is a current payload, feed the
parser with what is left of it and submit the access unit produced, then
release the packet if it is invalid or drained. -/
def DecoderAAC.parseSection (d : DecoderAAC) (a : Answers) : DecoderAAC :=
  match d._cur_data with
  | none => d
  | some data =>
    DecoderAAC.releaseIfDone
      (if d._pkt_offset < data.length then (d.feedParser a data).submitUnit a else d)

/-- Lines 157-212 of `CodecThread`: poll the codec session for one decoded
frame, recover its PTS, and emit it through `Complete`. -/
def DecoderAAC.receiveSection (d : DecoderAAC) (a : Answers) : DecoderAAC :=
  let d0 := { d with trace := d.trace ++ [DecEvent.ReceiveFrame a.recv_ret] }
  if a.recv_ret = AVERROR_EAGAIN then { d0 with no_data_to_encode := true }
  else if a.recv_ret < 0 then { d0 with trace := d0.trace ++ [DecEvent.LogReceiveError a.recv_ret] }
  else
    let d1 := if d0._change_format = false then { d0 with trace := d0.trace ++ [DecEvent.LogTrackInfo] } else d0
    let pts :=
      if a.frame_pts = AV_NOPTS_VALUE then
        if d1._last_pkt_pts = INT64_MIN then d1._first_pkt_pts
        else wrap64 (d1._last_pkt_pts + d1._last_pkt_duration)
      else a.frame_pts
    let frame : AVFrame := { pts := pts, pkt_duration := a.frame_duration }
    match ToMediaFrame a.convert_ok frame with
    | none => d1
    | some output_frame =>
      { d1 with
        _last_pkt_pts := output_frame.pts
        _last_pkt_duration := output_frame.duration
        _change_format := true
        trace := d1.trace ++ [DecEvent.Complete
          (if !d1._change_format then TranscodeResult.FormatChanged else TranscodeResult.DataReady)
          output_frame] }

/-- One iteration of the loop `while (!_kill_flag)` of `CodecThread`. -/
def DecoderAAC.iteration (d : DecoderAAC) (a : Answers) : DecoderAAC :=
  let r := d.dequeueSection a
  if r.1 then r.2 else (r.2.parseSection a).receiveSection a

/-- The loop of `CodecThread` run for as many iterations as answers are given
(the loop ends only when `_kill_flag` is set). -/
def DecoderAAC.loop (d : DecoderAAC) (iters : List Answers) : DecoderAAC :=
  iters.foldl DecoderAAC.iteration d

/-- The method `DecoderAAC::CodecThread`: the loop starts, with the local
`no_data_to_encode` false, only if `InitCodec` succeeded.  Modelled from the spec: `_codec_init_event.Submit` is outside
`src/`; it hands the result of `InitCodec` back. -/
def DecoderAAC.CodecThread (d : DecoderAAC) (init : InitAnswers) (iters : List Answers) :
    DecoderAAC :=
  let r := d.InitCodec init
  if r.1 = false then r.2 else DecoderAAC.loop { r.2 with no_data_to_encode := false } iters

/-- The frames emitted through `Complete`, oldest first, with their tags. -/
def completions : List DecEvent → List (TranscodeResult × MediaFrame)
  | [] => []
  | DecEvent.Complete r f :: t => (r, f) :: completions t
  | _ :: t => completions t

/-- The frames emitted through `Complete`, oldest first. -/
def emittedFrames (t : List DecEvent) : List MediaFrame :=
  (completions t).map Prod.snd

/-- The tags of a run that emits `n` frames when the first one is the
format-stabilized event: `FormatChanged`, then `DataReady` only. -/
def expectedTags : Nat → List TranscodeResult
  | 0 => []
  | n + 1 => TranscodeResult.FormatChanged :: List.replicate n TranscodeResult.DataReady

/-- The first input event of a trace: the first `Dequeue` or `Parse` in it. -/
def nextInput : List DecEvent → Option DecEvent
  | [] => none
  | DecEvent.Dequeue got :: _ => some (DecEvent.Dequeue got)
  | DecEvent.Parse input pts :: _ => some (DecEvent.Parse input pts)
  | _ :: t => nextInput t

/-- The first exchange of a trace between the stage and the codec session or
the sink: the first `SendPacket` or `Complete` in it. -/
def firstExchange : List DecEvent → Option DecEvent
  | [] => none
  | DecEvent.SendPacket pkt ret :: _ => some (DecEvent.SendPacket pkt ret)
  | DecEvent.Complete result frame :: _ => some (DecEvent.Complete result frame)
  | _ :: t => firstExchange t

/-- What the input half of an iteration leaves alone: the frames emitted so
far, the format flag, the bookkeeping of the last emitted frame, and the saved
first PTS once it is set. -/
def DecoderAAC.Keeps (d d1 : DecoderAAC) : Prop :=
  completions d1.trace = completions d.trace ∧
  d1._change_format = d._change_format ∧
  (d._first_pkt_pts ≠ INT64_MIN → d1._first_pkt_pts = d._first_pkt_pts) ∧
  d1._last_pkt_pts = d._last_pkt_pts ∧
  d1._last_pkt_duration = d._last_pkt_duration

/-- The PTS the recovery rule of `CodecThread` gives a frame that has none: the
saved first PTS when no frame was emitted yet, else the PTS plus the duration
of the last emitted frame. -/
def DecoderAAC.recoveredPts (d : DecoderAAC) : Int :=
  if d._last_pkt_pts = INT64_MIN then d._first_pkt_pts
  else wrap64 (d._last_pkt_pts + d._last_pkt_duration)

/-- The iteration from `d` to `d1` emitted the frame `f`, the codec session having
reported `frame_pts` for it. -/
def DecoderAAC.Emits (d : DecoderAAC) (frame_pts : Int) (d1 : DecoderAAC) (f : MediaFrame) : Prop :=
  completions d1.trace = completions d.trace ++
    [(if d._change_format then TranscodeResult.DataReady else TranscodeResult.FormatChanged, f)] ∧
  d1._change_format = true ∧
  (d._first_pkt_pts ≠ INT64_MIN → d1._first_pkt_pts = d._first_pkt_pts) ∧
  d1._last_pkt_pts = f.pts ∧
  d1._last_pkt_duration = f.duration ∧
  (d._first_pkt_pts ≠ INT64_MIN →
    f.pts = if frame_pts = AV_NOPTS_VALUE then d.recoveredPts else frame_pts)

/-- Forward accumulation as the loop performs it: the first frame of the list has
PTS `p`, and each later one the PTS plus the duration of the frame before it
(the saved first PTS `first` again if that PTS is the "none" value). -/
def Accumulated (first : Int) : Int → List MediaFrame → Prop
  | _, [] => True
  | p, f :: fs =>
    f.pts = p ∧
    Accumulated first (if f.pts = INT64_MIN then first else wrap64 (f.pts + f.duration)) fs

/-- The stage takes its next input from the queue: either it holds no payload
and has processed no input yet, or the first input it processed was a
`Dequeue`. -/
def DecoderAAC.AwaitsPacket (d : DecoderAAC) : Prop :=
  (d._cur_data = none ∧ nextInput d.trace = none) ∨
  ∃ got, nextInput d.trace = some (DecEvent.Dequeue got)

/-- A current payload always belongs to a current packet. -/
def DecoderAAC.Linked (d : DecoderAAC) : Prop :=
  d._cur_data ≠ none → d._cur_pkt ≠ none

/-- A freshly constructed stage after its first `Configure`. -/
def TranscodeFilter.configured (w : World) (id : Int) (input_track output_track : MediaTrack) :
    TranscodeFilter :=
  ((TranscodeFilter.construct input_track output_track).Configure w id input_track output_track).2

/-- The frames passed to `SendBuffer` in a sequence of steps, in order. -/
def sentFrames : List Op → List MediaFrame
  | [] => []
  | Op.SendBuffer f :: ops => f :: sentFrames ops
  | _ :: ops => sentFrames ops

/-- A step that is a `SendBuffer` call or a report of the engine worker. -/
def Op.feeds : Op → Bool
  | Op.SendBuffer _ => true
  | Op.EngineReport _ _ => true
  | _ => false

/-! ## The lifecycle of engine instances, read off a trace -/

/-- The engine instances held after one more call: a constructed instance is
held until its handle is dropped. -/
def heldStep (held : List Nat) : Event → List Nat
  | Event.Create id _ => held ++ [id]
  | Event.Release id => held.filter (fun h => h ≠ id)
  | _ => held

/-- The engine instances held after the calls of a trace. -/
def heldAfter (t : List Event) : List Nat :=
  t.foldl heldStep []

/-- The lifecycle discipline of a trace.  At every point of the trace (after
every initial segment `p`): at most one engine instance is held; a handle that
is dropped belongs to an engine whose `Stop()` was called before; and a
`SendBuffer` call goes to an engine whose `Stop()` was not called before. -/
def EngineDiscipline (t : List Event) : Prop :=
  ∀ p, p <+: t →
    (heldAfter p).length ≤ 1 ∧
    (∀ q id, p = q ++ [Event.Release id] → Event.Stop id ∈ q) ∧
    (∀ q id f, p = q ++ [Event.Send id f] → Event.Stop id ∉ q)

/-- The invariant of the stage behind the lifecycle discipline: the trace obeys
the discipline, the instance held according to the trace is the one in
`_internal`, and that instance is younger than `engines_made` and was never
stopped. -/
structure TranscodeFilter.Sound (s : TranscodeFilter) : Prop where
  discipline : EngineDiscipline s.trace
  held : heldAfter s.trace = (s._internal.map FilterBase.id).toList
  fresh : ∀ id, Event.Stop id ∈ s.trace → id < s.engines_made
  bound : ∀ e, s._internal = some e → e.id < s.engines_made
  live : ∀ e, s._internal = some e → Event.Stop e.id ∉ s.trace

/-! ## Sample values -/

/-- A 1280x720 video track with a 90 kHz timescale. -/
def sampleVideoTrack : MediaTrack :=
  { id := 0, media_type := MediaType.Video, timescale := 90000, width := 1280, height := 720,
    codec_module_id := MediaCodecModuleId.DEFAULT }

/-- A factory whose engines are not single-track, take 1280x720 input, start and
accept every frame. -/
def sampleWorld : World := fun _ _ =>
  { single_track := false, input_width := 1280, input_height := 720, state := FilterState.NORMAL,
    start_result := true, send_result := true }

/-- A video frame. -/
def sampleFrame (pts width height : Int) : MediaFrame :=
  { pts := pts, duration := 3000, width := width, height := height }

/-- A stage configured on the sample track. -/
def sampleStage : TranscodeFilter :=
  TranscodeFilter.configured sampleWorld 7 sampleVideoTrack sampleVideoTrack

/-- A factory whose engines fail to start. -/
def failingWorld : World := fun _ _ =>
  { single_track := false, input_width := 1280, input_height := 720, state := FilterState.NORMAL,
    start_result := false, send_result := true }

/-- A data track: neither audio nor video. -/
def sampleDataTrack : MediaTrack :=
  { id := 1, media_type := MediaType.Data, timescale := 1000, width := 0, height := 0,
    codec_module_id := MediaCodecModuleId.DEFAULT }

/-- A factory whose engines are single-track. -/
def singleTrackWorld : World := fun _ _ =>
  { single_track := true, input_width := 1280, input_height := 720, state := FilterState.NORMAL,
    start_result := true, send_result := true }

/-- Modelled from the spec: the member initialisers of `DecoderAAC` are in the
header, outside `src/`.  A new decode stage drains no packet, and its
timestamp bookkeeping holds the value `INT64_MIN` that `CodecThread` tests for
"no first packet yet" and "no frame emitted yet". -/
def DecoderAAC.construct : DecoderAAC :=
  { _cur_pkt := none
    _cur_data := none
    _pkt_offset := 0
    _pkt := { data := [], size := 0, pts := 0, dts := 0, flags := 0, duration := 0 }
    _first_pkt_pts := INT64_MIN
    _last_pkt_pts := INT64_MIN
    _last_pkt_duration := 0
    _change_format := false
    no_data_to_encode := false
    trace := [] }

/-- A codec library in which `InitCodec` succeeds. -/
def sampleInit : InitAnswers :=
  { codec_found := true, context_allocated := true, open_ret := 0, parser_found := true }

/-- A four-byte packet with PTS 1000. -/
def packetA : MediaPacket := { data := some [1, 2, 3, 4], pts := 1000 }

/-- A two-byte packet with PTS 2024. -/
def packetB : MediaPacket := { data := some [5, 6], pts := 2024 }

/-- An iteration in which `packetA` is at the head of the queue and the parser
turns its four bytes into one access unit; the codec session answers
`send_ret` to the submission and `recv_ret` to the poll, and reports no PTS
for the 1024-tick frame it delivers. -/
def answersA (send_ret recv_ret : Int) : Answers :=
  { queue_empty := false
    dequeued := some (some packetA)
    parser := { parsed_size := 4, out_data := [1, 2, 3, 4], out_size := 4, pts := 1000,
                dts := 1000, last_pts := AV_NOPTS_VALUE, key_frame := 1 }
    send_ret := send_ret
    recv_ret := recv_ret
    frame_pts := AV_NOPTS_VALUE
    frame_duration := 1024
    convert_ok := true }

/-- The same with `packetB` and its two bytes. -/
def answersB (send_ret recv_ret : Int) : Answers :=
  { queue_empty := false
    dequeued := some (some packetB)
    parser := { parsed_size := 2, out_data := [5, 6], out_size := 2, pts := 2024,
                dts := 2024, last_pts := 1000, key_frame := 1 }
    send_ret := send_ret
    recv_ret := recv_ret
    frame_pts := AV_NOPTS_VALUE
    frame_duration := 1024
    convert_ok := true }

/-! ## The HLS media playlist -/

/-- The result of the `uint64_t` subtraction `a - b`. -/
def sub64 (a b : Nat) : Nat := (a + (2 ^ 64 - b % 2 ^ 64)) % 2 ^ 64

/-- A transport-stream segment (`mpegts::Segment`): its number (`GetNumber()`),
its URL and whether it carries markers.  Its timestamps and duration only
enter the text of the lines written for it. -/
structure Segment where
  number : Nat
  url : String
  has_marker : Bool
  deriving DecidableEq, Repr

/-- The configuration of a playlist (`HlsMediaPlaylistConfig`). -/
structure HlsMediaPlaylistConfig where
  segment_count : Nat
  target_duration : Nat
  event_playlist_type : Bool
  deriving DecidableEq, Repr

/-- The map `_segments` from segment number to segment, as the list of its
entries in ascending key order. -/
abbrev SegmentMap := List (Nat × Segment)

/-- The call `_segments.emplace(k, v)`: the entry is inserted at its place in
key order unless the key is already present. -/
def SegmentMap.emplace : SegmentMap → Nat → Segment → SegmentMap
  | [], k, v => [(k, v)]
  | e :: t, k, v =>
    if k < e.1 then (k, v) :: e :: t
    else if k = e.1 then e :: t
    else e :: SegmentMap.emplace t k v

/-- The call `_segments.find(k)`: the segment stored under the key, if any. -/
def SegmentMap.find (m : SegmentMap) (k : Nat) : Option Segment :=
  (List.find? (fun e => decide (e.1 = k)) m).map Prod.snd

/-- The entries visited by `for (it = _segments.find(k); it != _segments.end(); it++)`:
the entry of key `k` and all that follow it; none when the key is absent. -/
def SegmentMap.fromKey (m : SegmentMap) (k : Nat) : SegmentMap :=
  List.dropWhile (fun e => decide (e.1 ≠ k)) m

/-- The call `_segments.erase(it)` for `it = _segments.find(k)`. -/
def SegmentMap.erase (m : SegmentMap) (k : Nat) : SegmentMap :=
  List.eraseP (fun e => decide (e.1 = k)) m

/-- The media playlist (`HlsMediaPlaylist`): the members `ToString` reads. -/
structure HlsMediaPlaylist where
  _config : HlsMediaPlaylistConfig
  _segments : SegmentMap
  _end_list : Bool
  deriving DecidableEq, Repr

/-- The constructor of `HlsMediaPlaylist`: no segment yet.  Modelled from the
spec: `_end_list` is initialised in the header, outside `src/`; a new playlist
is not ended. -/
def HlsMediaPlaylist.construct (config : HlsMediaPlaylistConfig) : HlsMediaPlaylist :=
  { _config := config, _segments := [], _end_list := false }

/-- The method `HlsMediaPlaylist::SetEndList`. -/
def HlsMediaPlaylist.SetEndList (p : HlsMediaPlaylist) : HlsMediaPlaylist :=
  { p with _end_list := true }

/-- The method `HlsMediaPlaylist::OnSegmentCreated` (the `OV_ASSERT` and the log
lines change no state). -/
def HlsMediaPlaylist.OnSegmentCreated (p : HlsMediaPlaylist) (segment : Segment) :
    Bool × HlsMediaPlaylist :=
  (true, { p with _segments := p._segments.emplace segment.number segment })

/-- The method `HlsMediaPlaylist::OnSegmentDeleted`. -/
def HlsMediaPlaylist.OnSegmentDeleted (p : HlsMediaPlaylist) (segment : Segment) :
    Bool × HlsMediaPlaylist :=
  match p._segments.find segment.number with
  | none => (false, p)
  | some _ => (true, { p with _segments := p._segments.erase segment.number })

/-- The decimal number that the conversion `%d` of `ov::String::FormatString`
writes for an unsigned argument of up to 64 bits: `%d` reads an `int`, that is
the low 32 bits of the argument taken as a signed number. -/
def renderD (n : Nat) : Int :=
  if n % 2 ^ 32 < 2 ^ 31 then ((n % 2 ^ 32 : Nat) : Int) else ((n % 2 ^ 32 : Nat) : Int) - 2 ^ 32

/-- What `ToString` appends to its result, piece by piece.  `TargetDuration d`
and `MediaSequence n` carry the number that stands in the text of the line;
`SegmentLines seg` stands for the three lines written for a segment (program
date-time, `#EXTINF`, URL). -/
inductive PlaylistLine where
  | ExtM3U
  | Version (v : Nat)
  | PlaylistTypeEvent
  | TargetDuration (d : Int)
  | MediaSequence (n : Int)
  | SegmentLines (seg : Segment)
  | EndList
  deriving DecidableEq, Repr

/-- The local `shift_count` of `ToString`. -/
def HlsMediaPlaylist.shift_count (p : HlsMediaPlaylist) : Nat :=
  if p._segments.length > p._config.segment_count then p._config.segment_count
  else p._segments.length - 1

/-- The local `last_segment_number` of `ToString`: the number of the segment at
`_segments.rbegin()` (`0` stands for the case of an empty map, in which
`ToString` has returned before). -/
def HlsMediaPlaylist.last_segment_number (p : HlsMediaPlaylist) : Nat :=
  match p._segments.getLast? with
  | some e => e.2.number
  | none => 0

/-- The lines `ToString` writes before it looks at the segments. -/
def HlsMediaPlaylist.header (p : HlsMediaPlaylist) (rewind : Bool) : List PlaylistLine :=
  [PlaylistLine.ExtM3U, PlaylistLine.Version 3] ++
    (if rewind = true ∧ p._config.event_playlist_type = true then [PlaylistLine.PlaylistTypeEvent]
      else []) ++
    [PlaylistLine.TargetDuration (renderD p._config.target_duration)]

/-- The method `HlsMediaPlaylist::ToString`.  When the first segment to list is
not found the method logs an error and returns the header alone.  The media
sequence line is written with the conversion `%d` from the 64-bit number of
the first segment to list. -/
def HlsMediaPlaylist.ToString (p : HlsMediaPlaylist) (rewind : Bool) : List PlaylistLine :=
  let result := p.header rewind
  match p._segments.head? with
  | none => result
  | some first =>
    let found : Option Segment :=
      if rewind = false then
        p._segments.find (sub64 p.last_segment_number p.shift_count)
      else some first.2
    match found with
    | none => result
    | some first_segment =>
      result ++ [PlaylistLine.MediaSequence (renderD first_segment.number)] ++
        (p._segments.fromKey first_segment.number).map (fun e => PlaylistLine.SegmentLines e.2) ++
        (if p._end_list = true then [PlaylistLine.EndList] else [])

/-- The segments a playlist text lists, in the order of the text. -/
def listedSegments : List PlaylistLine → List Segment
  | [] => []
  | PlaylistLine.SegmentLines seg :: t => seg :: listedSegments t
  | _ :: t => listedSegments t

/-- The values of the `#EXT-X-MEDIA-SEQUENCE` lines of a playlist text. -/
def mediaSequences : List PlaylistLine → List Int
  | [] => []
  | PlaylistLine.MediaSequence n :: t => n :: mediaSequences t
  | _ :: t => mediaSequences t

/-- The map is what `OnSegmentCreated` builds: keys in strictly ascending order,
each segment stored under its own number. -/
def SegmentMap.WellFormed (m : SegmentMap) : Prop :=
  List.Pairwise (fun a b => a < b) (m.map Prod.fst) ∧ ∀ e ∈ m, e.2.number = e.1

/-- One call on a playlist by the packager. -/
inductive PlaylistOp where
  | OnSegmentCreated (segment : Segment)
  | OnSegmentDeleted (segment : Segment)
  | SetEndList
  deriving DecidableEq, Repr

/-- The playlist after one call. -/
def HlsMediaPlaylist.step (p : HlsMediaPlaylist) : PlaylistOp → HlsMediaPlaylist
  | PlaylistOp.OnSegmentCreated segment => (p.OnSegmentCreated segment).2
  | PlaylistOp.OnSegmentDeleted segment => (p.OnSegmentDeleted segment).2
  | PlaylistOp.SetEndList => p.SetEndList

/-- The playlist after a sequence of calls. -/
def HlsMediaPlaylist.run (p : HlsMediaPlaylist) (ops : List PlaylistOp) : HlsMediaPlaylist :=
  ops.foldl HlsMediaPlaylist.step p

/-- A segment with the given number. -/
def sampleSegment (n : Nat) : Segment :=
  { number := n, url := "seg.ts", has_marker := false }

/-- A playlist configured for 3 segments that holds the one segment 4294967301
(that is `2 ^ 32 + 5`). -/
def farPlaylist : HlsMediaPlaylist :=
  { _config := { segment_count := 3, target_duration := 6, event_playlist_type := false }
    _segments := [(4294967301, sampleSegment 4294967301)]
    _end_list := false }

/-- A playlist configured for 3 segments that holds the segments 7 to 11. -/
def samplePlaylist : HlsMediaPlaylist :=
  { _config := { segment_count := 3, target_duration := 6, event_playlist_type := false }
    _segments := [(7, sampleSegment 7), (8, sampleSegment 8), (9, sampleSegment 9),
      (10, sampleSegment 10), (11, sampleSegment 11)]
    _end_list := false }

/-! ## Theorems: the filter stage -/

/-- C1: on a video track whose active engine is not single-track, a frame that
raises no timestamp discontinuity and whose width or height differs from the
engine's input geometry makes `SendBuffer` (a) set the input track's width and
height to the frame's, (b) rebuild the engine exactly once (the old engine is
stopped and released once, one new rescaler is constructed, bound to the
updated tracks and started), and (c) send the frame to no engine.  The result
is what `Start()` of the new engine returned. -/
theorem sendBuffer_geometry_change_rebuilds_once (w : World) (s : TranscodeFilter)
    (e : FilterBase) (buffer : MediaFrame)
    (hvideo : s._input_track.media_type = MediaType.Video)
    (he : s._internal = some e)
    (hsingle : e.answers.single_track = false)
    (hts : is_abnormal s._last_timestamp buffer.pts s._timestamp_jump_threshold = false)
    (hgeo : buffer.width ≠ e.answers.input_width ∨ buffer.height ≠ e.answers.input_height) :
    ((s.SendBuffer w buffer).2._input_track.width = buffer.width ∧
      (s.SendBuffer w buffer).2._input_track.height = buffer.height) ∧
    (s.SendBuffer w buffer).2.trace = s.trace ++
      [Event.LogResolutionChange buffer.width buffer.height,
        Event.Stop e.id, Event.Release e.id,
        Event.Create s.engines_made EngineKind.FilterRescaler,
        Event.SetTracks s.engines_made
          { s._input_track with width := buffer.width, height := buffer.height } s._output_track,
        Event.Start s.engines_made (w s.engines_made EngineKind.FilterRescaler).start_result] ++
      (if (w s.engines_made EngineKind.FilterRescaler).start_result then []
        else [Event.LogRegenerateFailed]) ∧
    (s.SendBuffer w buffer).2._internal =
      some { id := s.engines_made, answers := w s.engines_made EngineKind.FilterRescaler } ∧
    (∀ id f, Event.Send id f ∉ (s.SendBuffer w buffer).2.trace.drop s.trace.length) ∧
    (s.SendBuffer w buffer).1 = (w s.engines_made EngineKind.FilterRescaler).start_result := by
  have hneed : s.IsNeedUpdate buffer = (true,
      { s with
        _last_timestamp := buffer.pts
        _input_track := { s._input_track with width := buffer.width, height := buffer.height }
        trace := s.trace ++ [Event.LogResolutionChange buffer.width buffer.height] }) := by
    simp [TranscodeFilter.IsNeedUpdate, he, hsingle, hts, hvideo, hgeo]
  cases hstart : (w s.engines_made EngineKind.FilterRescaler).start_result <;>
    simp [TranscodeFilter.SendBuffer, hneed, TranscodeFilter.CreateInternal,
      TranscodeFilter.dropInternal, TranscodeFilter.build, he, hvideo, hstart]


/-- Witness of C1: a 1920x1080 frame on the sample stage, whose engine takes
1280x720. -/
theorem sendBuffer_geometry_change_rebuilds_once_witness :
    ((sampleStage.SendBuffer sampleWorld (sampleFrame 0 1920 1080)).2._input_track.width = 1920 ∧
      (sampleStage.SendBuffer sampleWorld (sampleFrame 0 1920 1080)).2._input_track.height = 1080) ∧
    (sampleStage.SendBuffer sampleWorld (sampleFrame 0 1920 1080)).1 = true :=
  have h := sendBuffer_geometry_change_rebuilds_once sampleWorld sampleStage
    { id := 0, answers := sampleWorld 0 EngineKind.FilterRescaler } (sampleFrame 0 1920 1080)
    (by decide) (by decide) (by decide) (by decide) (by decide)
  ⟨h.1, h.2.2.2.2⟩

/-- In range, `wrap64` changes nothing. -/
theorem wrap64_of_range {x : Int} (h1 : INT64_MIN ≤ x) (h2 : x ≤ INT64_MAX) : wrap64 x = x := by
  unfold wrap64
  unfold INT64_MIN at h1
  unfold INT64_MAX at h2
  omega

/-- When the difference of two timestamps fits, `abs` of it is its absolute value. -/
theorem abs64_wrap64_of_range {x : Int} (h : |x| ≤ INT64_MAX) : abs64 (wrap64 x) = |x| := by
  have h1 : INT64_MIN ≤ x := by
    have := neg_abs_le x
    unfold INT64_MIN; unfold INT64_MAX at h; omega
  have h2 : x ≤ INT64_MAX := le_trans (le_abs_self x) h
  rw [wrap64_of_range h1 h2]
  unfold abs64
  split_ifs with hx
  · rw [abs_of_neg hx] at h ⊢
    exact wrap64_of_range (by unfold INT64_MIN; unfold INT64_MAX at h; omega) h
  · rw [abs_of_nonneg (not_lt.mp hx)] at h ⊢
    exact wrap64_of_range h1 h


/-- The fields `IsNeedUpdate` never writes. -/
theorem isNeedUpdate_keeps (s : TranscodeFilter) (f : MediaFrame) :
    (s.IsNeedUpdate f).2._timestamp_jump_threshold = s._timestamp_jump_threshold ∧
    (s.IsNeedUpdate f).2._input_track.media_type = s._input_track.media_type ∧
    (s.IsNeedUpdate f).2._internal = s._internal ∧
    (s.IsNeedUpdate f).2.engines_made = s.engines_made ∧
    (s.IsNeedUpdate f).2._output_track = s._output_track := by
  unfold TranscodeFilter.IsNeedUpdate
  cases hi : s._internal with
  | none => simp [hi]
  | some e =>
    simp only [hi]
    split_ifs <;> simp [hi]

/-- The fields `CreateInternal` never writes. -/
theorem createInternal_keeps (w : World) (s : TranscodeFilter) :
    (s.CreateInternal w).2._timestamp_jump_threshold = s._timestamp_jump_threshold ∧
    (s.CreateInternal w).2._input_track = s._input_track ∧
    (s.CreateInternal w).2._output_track = s._output_track ∧
    (s.CreateInternal w).2._last_timestamp = s._last_timestamp := by
  unfold TranscodeFilter.CreateInternal TranscodeFilter.dropInternal TranscodeFilter.build
  cases hi : s._internal <;> cases hm : s._input_track.media_type <;> simp [hi, hm]

/-- The fields `SendBuffer` never writes. -/
theorem sendBuffer_keeps (w : World) (s : TranscodeFilter) (f : MediaFrame) :
    (s.SendBuffer w f).2._timestamp_jump_threshold = s._timestamp_jump_threshold ∧
    (s.SendBuffer w f).2._input_track.media_type = s._input_track.media_type := by
  have h1 := isNeedUpdate_keeps s f
  have h2 := createInternal_keeps w (s.IsNeedUpdate f).2
  unfold TranscodeFilter.SendBuffer
  simp only []
  split_ifs with hn hc
  · simp [h1, h2]
  · simp [h1, h2]
  · split <;> simp [h1]


/-- With a multi-track engine held, `IsNeedUpdate` records the frame's PTS. -/
theorem isNeedUpdate_last_timestamp (s : TranscodeFilter) (f : MediaFrame) (e : FilterBase)
    (he : s._internal = some e) (hs : e.answers.single_track = false) :
    (s.IsNeedUpdate f).2._last_timestamp = f.pts := by
  unfold TranscodeFilter.IsNeedUpdate
  simp only [he, hs]
  split_ifs <;> first | contradiction | simp

/-- With a multi-track engine held, an abnormal timestamp is the first trigger. -/
theorem isNeedUpdate_abnormal (s : TranscodeFilter) (f : MediaFrame) (e : FilterBase)
    (he : s._internal = some e) (hs : e.answers.single_track = false)
    (ha : is_abnormal s._last_timestamp f.pts s._timestamp_jump_threshold = true) :
    s.IsNeedUpdate f = (true,
      { s with
        _last_timestamp := f.pts
        trace := s.trace ++ [Event.LogTimestampJump s._last_timestamp f.pts] }) := by
  unfold TranscodeFilter.IsNeedUpdate
  simp [he, hs, ha]

/-- Without an abnormal timestamp `IsNeedUpdate` logs no timestamp warning. -/
theorem isNeedUpdate_no_jump (s : TranscodeFilter) (f : MediaFrame)
    (ha : is_abnormal s._last_timestamp f.pts s._timestamp_jump_threshold = false) (a b : Int)
    (hm : Event.LogTimestampJump a b ∈ (s.IsNeedUpdate f).2.trace) :
    Event.LogTimestampJump a b ∈ s.trace := by
  unfold TranscodeFilter.IsNeedUpdate at hm
  cases hi : s._internal with
  | none => simpa [hi] using hm
  | some e =>
    simp only [hi, ha] at hm
    split_ifs at hm <;> first | contradiction | simpa using hm

/-- The method `CreateInternal` logs no timestamp warning. -/
theorem createInternal_no_jump (w : World) (s : TranscodeFilter) (a b : Int)
    (hm : Event.LogTimestampJump a b ∈ (s.CreateInternal w).2.trace) :
    Event.LogTimestampJump a b ∈ s.trace := by
  unfold TranscodeFilter.CreateInternal TranscodeFilter.dropInternal TranscodeFilter.build at hm
  cases hi : s._internal <;> cases hmt : s._input_track.media_type <;>
    simpa [hi, hmt] using hm

/-- Without an abnormal timestamp `SendBuffer` logs no timestamp warning. -/
theorem sendBuffer_no_jump (w : World) (s : TranscodeFilter) (f : MediaFrame)
    (ha : is_abnormal s._last_timestamp f.pts s._timestamp_jump_threshold = false) (a b : Int)
    (hm : Event.LogTimestampJump a b ∈ (s.SendBuffer w f).2.trace) :
    Event.LogTimestampJump a b ∈ s.trace := by
  unfold TranscodeFilter.SendBuffer at hm
  simp only [] at hm
  split_ifs at hm with hn hc
  · simp only [List.mem_append, List.mem_singleton, reduceCtorEq, or_false] at hm
    exact isNeedUpdate_no_jump s f ha a b (createInternal_no_jump w _ a b hm)
  · exact isNeedUpdate_no_jump s f ha a b (createInternal_no_jump w _ a b hm)
  · split at hm
    · exact isNeedUpdate_no_jump s f ha a b hm
    · simp only [List.mem_append, List.mem_singleton, reduceCtorEq, or_false] at hm
      exact isNeedUpdate_no_jump s f ha a b hm

/-- Replacing an engine on an audio or video track: the old engine is stopped
and released, one new engine is constructed, bound and started. -/
theorem createInternal_replace (w : World) (s : TranscodeFilter) (e : FilterBase)
    (he : s._internal = some e)
    (hm : s._input_track.media_type = MediaType.Audio ∨ s._input_track.media_type = MediaType.Video) :
    ∃ kind, s.CreateInternal w = ((w s.engines_made kind).start_result,
      { s with
        _internal := some { id := s.engines_made, answers := w s.engines_made kind }
        engines_made := s.engines_made + 1
        trace := s.trace ++ [Event.Stop e.id, Event.Release e.id,
          Event.Create s.engines_made kind,
          Event.SetTracks s.engines_made s._input_track s._output_track,
          Event.Start s.engines_made (w s.engines_made kind).start_result] }) := by
  unfold TranscodeFilter.CreateInternal TranscodeFilter.dropInternal TranscodeFilter.build
  rcases hm with hm | hm
  · exact ⟨EngineKind.FilterResampler, by simp [he, hm]⟩
  · exact ⟨EngineKind.FilterRescaler, by simp [he, hm]⟩

/-- A configured stage holds an engine only on an audio or video track; it has
seen no frame, and its threshold is 15 times the timescale. -/
theorem configured_facts (w : World) (id : Int) (input output : MediaTrack) :
    ((TranscodeFilter.configured w id input output)._internal ≠ none →
      input.media_type = MediaType.Audio ∨ input.media_type = MediaType.Video) ∧
    (TranscodeFilter.configured w id input output)._last_timestamp = -1 ∧
    (TranscodeFilter.configured w id input output)._timestamp_jump_threshold =
      wrap64 (input.timescale * PTS_INCREMENT_LIMIT) ∧
    (TranscodeFilter.configured w id input output)._input_track = input ∧
    (∀ a b, Event.LogTimestampJump a b ∉ (TranscodeFilter.configured w id input output).trace) := by
  unfold TranscodeFilter.configured TranscodeFilter.Configure TranscodeFilter.construct
    TranscodeFilter.CreateInternal TranscodeFilter.dropInternal TranscodeFilter.build
  cases hm : input.media_type <;> simp [hm]


/-- The first frame never counts as a timestamp jump. -/
theorem is_abnormal_first (curr threshold : Int) : is_abnormal (-1) curr threshold = false := by
  simp [is_abnormal]

/-- After a first frame, the jump test compares the distance of the two PTS
with the threshold, as long as the distance fits an `int64_t`. -/
theorem is_abnormal_iff {last curr threshold : Int} (hl : last ≠ -1)
    (hd : |curr - last| ≤ INT64_MAX) :
    is_abnormal last curr threshold = true ↔ threshold < |curr - last| := by
  simp [is_abnormal, hl, abs64_wrap64_of_range hd]

/-- With a multi-track engine held, `SendBuffer` records the frame's PTS. -/
theorem sendBuffer_last_timestamp (w : World) (s : TranscodeFilter) (f : MediaFrame)
    (e : FilterBase) (he : s._internal = some e) (hs : e.answers.single_track = false) :
    (s.SendBuffer w f).2._last_timestamp = f.pts := by
  have h1 := isNeedUpdate_last_timestamp s f e he hs
  have h2 := createInternal_keeps w (s.IsNeedUpdate f).2
  unfold TranscodeFilter.SendBuffer
  simp only []
  split_ifs with hn hc
  · simp [h1, h2]
  · simp [h1, h2]
  · split <;> simp [h1]

/-- C2 (amended): on a freshly configured stage, let `f1`, `f2` be the first two
frames, the engine held at each of the two calls being multi-track.  Provided
the PTS of `f1` is not the value `-1` that marks "no frame yet" (and the
threshold and the PTS distance fit an `int64_t`): `f1` logs no timestamp
warning; when the PTS differ by more than 15 times the timescale, `f2` logs the
warning and rebuilds the engine exactly once without forwarding `f2`; when they
differ by at most that, `f2` logs no timestamp warning. -/
theorem first_two_frames_timestamp_rebuild (w : World) (id : Int) (input output : MediaTrack)
    (f1 f2 : MediaFrame) (e0 e1 : FilterBase)
    (hthr : INT64_MIN ≤ input.timescale * 15 ∧ input.timescale * 15 ≤ INT64_MAX)
    (hdiff : |f2.pts - f1.pts| ≤ INT64_MAX)
    (hf1 : f1.pts ≠ -1)
    (h0 : (TranscodeFilter.configured w id input output)._internal = some e0)
    (h0s : e0.answers.single_track = false)
    (h1 : ((TranscodeFilter.configured w id input output).SendBuffer w f1).2._internal = some e1)
    (h1s : e1.answers.single_track = false) :
    (∀ a b, Event.LogTimestampJump a b ∉
      ((TranscodeFilter.configured w id input output).SendBuffer w f1).2.trace) ∧
    (15 * input.timescale < |f2.pts - f1.pts| →
      ∃ kind n s1, s1 = ((TranscodeFilter.configured w id input output).SendBuffer w f1).2 ∧
        n = s1.engines_made ∧
        (s1.SendBuffer w f2).2.trace = s1.trace ++
          [Event.LogTimestampJump f1.pts f2.pts, Event.Stop e1.id, Event.Release e1.id,
            Event.Create n kind, Event.SetTracks n s1._input_track s1._output_track,
            Event.Start n (w n kind).start_result] ++
          (if (w n kind).start_result then [] else [Event.LogRegenerateFailed])) ∧
    (|f2.pts - f1.pts| ≤ 15 * input.timescale →
      ∀ a b, Event.LogTimestampJump a b ∈
          (((TranscodeFilter.configured w id input output).SendBuffer w f1).2.SendBuffer w f2).2.trace →
        Event.LogTimestampJump a b ∈
          ((TranscodeFilter.configured w id input output).SendBuffer w f1).2.trace) := by
  obtain ⟨hmedia, hlast0, hthr0, htrack0, hlog0⟩ := configured_facts w id input output
  have hkeep := sendBuffer_keeps w (TranscodeFilter.configured w id input output) f1
  have hlast1 := sendBuffer_last_timestamp w _ f1 e0 h0 h0s
  have hthr1 : ((TranscodeFilter.configured w id input output).SendBuffer w f1).2._timestamp_jump_threshold
      = 15 * input.timescale := by
    rw [hkeep.1, hthr0, PTS_INCREMENT_LIMIT, wrap64_of_range hthr.1 hthr.2, mul_comm]
  have hiff := @is_abnormal_iff f1.pts f2.pts (15 * input.timescale) hf1 hdiff
  refine ⟨?_, ?_, ?_⟩
  · intro a b hm
    refine hlog0 a b (sendBuffer_no_jump w _ f1 ?_ a b hm)
    rw [hlast0]
    exact is_abnormal_first _ _
  · intro hbig
    generalize hs1 : ((TranscodeFilter.configured w id input output).SendBuffer w f1).2 = s1 at *
    have hab : is_abnormal s1._last_timestamp f2.pts s1._timestamp_jump_threshold = true := by
      rw [hlast1, hthr1]
      exact hiff.mpr hbig
    have hneed := isNeedUpdate_abnormal s1 f2 e1 h1 h1s hab
    rw [hlast1] at hneed
    have hmt : s1._input_track.media_type = MediaType.Audio ∨
        s1._input_track.media_type = MediaType.Video := by
      rw [hkeep.2, htrack0]
      exact hmedia (by simp [h0])
    obtain ⟨kind, hc⟩ := createInternal_replace w
      { s1 with
        _last_timestamp := f2.pts
        trace := s1.trace ++ [Event.LogTimestampJump f1.pts f2.pts] } e1 h1 hmt
    refine ⟨kind, s1.engines_made, s1, rfl, rfl, ?_⟩
    unfold TranscodeFilter.SendBuffer
    simp only [hneed, hc]
    cases (w s1.engines_made kind).start_result <;> simp
  · intro hsmall a b hm
    refine sendBuffer_no_jump w _ f2 ?_ a b hm
    rw [hlast1, hthr1]
    cases hab : is_abnormal f1.pts f2.pts (15 * input.timescale) with
    | false => rfl
    | true => exact absurd (hiff.mp hab) (not_lt.mpr hsmall)

/-- Witness of C2 (amended): frames at PTS 0 and 2000000 on the 90 kHz sample
track; the second one makes the stage replace engine 0 by engine 1. -/
theorem first_two_frames_timestamp_rebuild_witness :
    ∃ kind n s1,
      s1 = ((TranscodeFilter.configured sampleWorld 7 sampleVideoTrack sampleVideoTrack).SendBuffer
        sampleWorld (sampleFrame 0 1280 720)).2 ∧
      n = s1.engines_made ∧
      (s1.SendBuffer sampleWorld (sampleFrame 2000000 1280 720)).2.trace = s1.trace ++
        [Event.LogTimestampJump 0 2000000, Event.Stop 0, Event.Release 0,
          Event.Create n kind, Event.SetTracks n s1._input_track s1._output_track,
          Event.Start n (sampleWorld n kind).start_result] ++
        (if (sampleWorld n kind).start_result then [] else [Event.LogRegenerateFailed]) :=
  (first_two_frames_timestamp_rebuild sampleWorld 7 sampleVideoTrack sampleVideoTrack
    (sampleFrame 0 1280 720) (sampleFrame 2000000 1280 720)
    { id := 0, answers := sampleWorld 0 EngineKind.FilterRescaler }
    { id := 0, answers := sampleWorld 0 EngineKind.FilterRescaler }
    (by decide) (by decide) (by decide) (by decide) (by decide) (by decide) (by decide)).2.1
    (by decide)

/-- Counterexample to C2 as stated: the first frame has PTS `-1`, the second one
PTS 2000000 on the 90 kHz sample track (a distance above 15 x 90000); both are
forwarded to engine 0 and nothing is rebuilt. -/
theorem first_frame_pts_minus_one_hides_jump :
    15 * sampleVideoTrack.timescale < |(sampleFrame 2000000 1280 720).pts - (sampleFrame (-1) 1280 720).pts| ∧
    ((sampleStage.SendBuffer sampleWorld (sampleFrame (-1) 1280 720)).2.SendBuffer sampleWorld
      (sampleFrame 2000000 1280 720)).2.trace =
      sampleStage.trace ++ [Event.Send 0 (sampleFrame (-1) 1280 720),
        Event.Send 0 (sampleFrame 2000000 1280 720)] := by
  constructor
  · decide
  · decide


/-- With a single-track engine held, `SendBuffer` only forwards the frame. -/
theorem sendBuffer_single_track (w : World) (s : TranscodeFilter) (e : FilterBase)
    (f : MediaFrame) (he : s._internal = some e) (hs : e.answers.single_track = true) :
    s.SendBuffer w f =
      (e.answers.send_result, { s with trace := s.trace ++ [Event.Send e.id f] }) := by
  simp [TranscodeFilter.SendBuffer, TranscodeFilter.IsNeedUpdate, he, hs]

/-- C3: while the engine held reports `IsSingleTrack() == true`, every sequence
of `SendBuffer` calls, with any frames and with the engine worker reporting
any health state in between, rebuilds nothing and leaves the input track
descriptor unchanged: the calls made are exactly one `SendBuffer` on that same
engine per frame, in order, and the same engine is still held. -/
theorem single_track_never_reconfigures (w : World) (ops : List Op) (s : TranscodeFilter)
    (e : FilterBase) (he : s._internal = some e) (hs : e.answers.single_track = true)
    (hops : ∀ op ∈ ops, op.feeds = true) :
    (s.run w ops).trace = s.trace ++ (sentFrames ops).map (Event.Send e.id) ∧
    (s.run w ops)._input_track = s._input_track ∧
    (s.run w ops).engines_made = s.engines_made ∧
    ∃ e1, (s.run w ops)._internal = some e1 ∧ e1.id = e.id ∧ e1.answers.single_track = true := by
  induction ops generalizing s e with
  | nil => exact ⟨by simp [TranscodeFilter.run, sentFrames], rfl, rfl, e, he, rfl, hs⟩
  | cons op ops ih =>
    have hop := hops op (List.mem_cons_self _ _)
    have hrest : ∀ o ∈ ops, o.feeds = true := fun o ho => hops o (List.mem_cons_of_mem _ ho)
    cases op with
    | SendBuffer f =>
      have hstep : s.step w (Op.SendBuffer f) = { s with trace := s.trace ++ [Event.Send e.id f] } := by
        simp [TranscodeFilter.step, sendBuffer_single_track w s e f he hs]
      obtain ⟨h1, h2, h3, e1, h4, h5, h6⟩ :=
        ih { s with trace := s.trace ++ [Event.Send e.id f] } e he hs hrest
      simp only [TranscodeFilter.run, List.foldl_cons, hstep] at h1 h2 h3 h4 ⊢
      exact ⟨by simp [h1, sentFrames], h2, h3, e1, h4, h5, h6⟩
    | EngineReport st ok =>
      have hstep : s.step w (Op.EngineReport st ok) =
          { s with _internal := some { e with answers := { e.answers with state := st, send_result := ok } } } := by
        simp [TranscodeFilter.step, TranscodeFilter.engineReport, he]
      obtain ⟨h1, h2, h3, e1, h4, h5, h6⟩ :=
        ih { s with _internal := some { e with answers := { e.answers with state := st, send_result := ok } } }
          { e with answers := { e.answers with state := st, send_result := ok } } rfl hs hrest
      simp only [TranscodeFilter.run, List.foldl_cons, hstep] at h1 h2 h3 h4 ⊢
      exact ⟨by simp [h1, sentFrames], h2, h3, e1, h4, h5, h6⟩
    | Configure id i o => simp [Op.feeds] at hop
    | Stop => simp [Op.feeds] at hop
    | Flush => simp [Op.feeds] at hop

/-- Witness of C3: a frame with a large PTS jump and a new geometry, an engine
error report, and another frame, on a stage with a single-track engine. -/
theorem single_track_never_reconfigures_witness :
    ((TranscodeFilter.configured singleTrackWorld 7 sampleVideoTrack sampleVideoTrack).run
      singleTrackWorld
      [Op.SendBuffer (sampleFrame 0 1280 720), Op.EngineReport FilterState.ERROR false,
        Op.SendBuffer (sampleFrame 9000000 1920 1080)])._input_track = sampleVideoTrack :=
  (single_track_never_reconfigures singleTrackWorld
    [Op.SendBuffer (sampleFrame 0 1280 720), Op.EngineReport FilterState.ERROR false,
      Op.SendBuffer (sampleFrame 9000000 1920 1080)]
    (TranscodeFilter.configured singleTrackWorld 7 sampleVideoTrack sampleVideoTrack)
    { id := 0, answers := singleTrackWorld 0 EngineKind.FilterRescaler }
    (by decide) (by decide) (by decide)).2.1

/-- Without an engine, every `SendBuffer` fails and changes nothing. -/
theorem sendAll_without_engine (w : World) (frames : List MediaFrame) (s : TranscodeFilter)
    (hi : s._internal = none) :
    s.sendAll w frames = (List.replicate frames.length false, s) := by
  induction frames with
  | nil => rfl
  | cons f fs ih =>
    have h : s.SendBuffer w f = (false, s) := by
      simp [TranscodeFilter.SendBuffer, TranscodeFilter.IsNeedUpdate, hi]
    simp [TranscodeFilter.sendAll, h, ih, List.replicate_succ]

/-- C4: after `Stop` the stage holds no engine, and every `SendBuffer` of every
further sequence of frames returns `false` and leaves the stage as it is: its
trace gains no call, so no engine is constructed and no frame is sent to any
engine, the released one included. -/
theorem sendBuffer_after_stop_fails (w : World) (s : TranscodeFilter) (frames : List MediaFrame) :
    s.Stop._internal = none ∧
    s.Stop.sendAll w frames = (List.replicate frames.length false, s.Stop) ∧
    (s.Stop.sendAll w frames).2.trace = s.Stop.trace ∧
    (s.Stop.sendAll w frames).2.engines_made = s.engines_made := by
  have hi : s.Stop._internal = none := by
    unfold TranscodeFilter.Stop TranscodeFilter.dropInternal
    cases h : s._internal <;> simp [h]
  have hm : s.Stop.engines_made = s.engines_made := by
    unfold TranscodeFilter.Stop TranscodeFilter.dropInternal
    cases h : s._internal <;> simp
  rw [sendAll_without_engine w frames s.Stop hi]
  exact ⟨hi, rfl, rfl, hm⟩


/-- Counterexample to C5 as stated: on the sample video track the new engine's
`Start()` returns false.  `Configure` returns false, yet the stage still holds
the engine it built, and the next `SendBuffer` forwards its frame to that
engine and returns true. -/
theorem failed_start_keeps_engine :
    ((TranscodeFilter.construct sampleVideoTrack sampleVideoTrack).Configure failingWorld 7
      sampleVideoTrack sampleVideoTrack).1 = false ∧
    (TranscodeFilter.configured failingWorld 7 sampleVideoTrack sampleVideoTrack)._internal =
      some { id := 0, answers := failingWorld 0 EngineKind.FilterRescaler } ∧
    ((TranscodeFilter.configured failingWorld 7 sampleVideoTrack sampleVideoTrack).SendBuffer
      failingWorld (sampleFrame 0 1280 720)).1 = true ∧
    ((TranscodeFilter.configured failingWorld 7 sampleVideoTrack sampleVideoTrack).SendBuffer
      failingWorld (sampleFrame 0 1280 720)).2.trace =
      (TranscodeFilter.configured failingWorld 7 sampleVideoTrack sampleVideoTrack).trace ++
        [Event.Send 0 (sampleFrame 0 1280 720)] := by
  decide

/-- C5 (amended): when `CreateInternal` fails, the calling `Configure` or
`SendBuffer` returns false.  If it failed because the media type is neither
audio nor video, the stage is left without an engine and every later
`SendBuffer` returns false and changes nothing (no frame reaches an engine, no
rebuild is attempted).  If it failed because `Start()` of the new engine
returned false, that new engine stays installed in the stage. -/
theorem createInternal_failure_outcome (w : World) (s : TranscodeFilter)
    (hfail : (s.CreateInternal w).1 = false) :
    (∀ (t : TranscodeFilter) (id : Int) (i o : MediaTrack),
      s = { t with
            _id := id, _input_track := i, _output_track := o
            _timestamp_jump_threshold := wrap64 (i.timescale * PTS_INCREMENT_LIMIT) } →
      t.Configure w id i o = (false, (s.CreateInternal w).2)) ∧
    (∀ (t : TranscodeFilter) (f : MediaFrame), t.IsNeedUpdate f = (true, s) →
      (t.SendBuffer w f).1 = false ∧
      (t.SendBuffer w f).2._internal = (s.CreateInternal w).2._internal) ∧
    (s._input_track.media_type ≠ MediaType.Audio → s._input_track.media_type ≠ MediaType.Video →
      (s.CreateInternal w).2._internal = none ∧
      (∀ frames : List MediaFrame, (s.CreateInternal w).2.sendAll w frames =
        (List.replicate frames.length false, (s.CreateInternal w).2)) ∧
      (∀ (t : TranscodeFilter) (f : MediaFrame) (frames : List MediaFrame),
        t.IsNeedUpdate f = (true, s) →
        (t.SendBuffer w f).2.sendAll w frames =
          (List.replicate frames.length false, (t.SendBuffer w f).2))) ∧
    (s._input_track.media_type = MediaType.Audio ∨ s._input_track.media_type = MediaType.Video →
      ∃ kind, (w s.engines_made kind).start_result = false ∧
        (s.CreateInternal w).2._internal =
          some { id := s.engines_made, answers := w s.engines_made kind }) := by
  refine ⟨?_, ?_, ?_, ?_⟩
  · intro t id i o ht
    unfold TranscodeFilter.Configure
    rw [← ht, ← hfail]
  · intro t f hn
    unfold TranscodeFilter.SendBuffer
    simp [hn, hfail]
  · intro ha hv
    have hnone : (s.CreateInternal w).2._internal = none := by
      unfold TranscodeFilter.CreateInternal TranscodeFilter.dropInternal
      cases hi : s._internal <;> cases hm : s._input_track.media_type <;> simp_all
    refine ⟨hnone, fun frames => sendAll_without_engine w frames _ hnone, ?_⟩
    intro t f frames hn
    refine sendAll_without_engine w frames _ ?_
    unfold TranscodeFilter.SendBuffer
    simp [hn, hfail, hnone]
  · intro hm
    unfold TranscodeFilter.CreateInternal TranscodeFilter.dropInternal TranscodeFilter.build at hfail ⊢
    rcases hm with hm | hm
    · refine ⟨EngineKind.FilterResampler, ?_, ?_⟩ <;>
        cases hi : s._internal <;> simp_all
    · refine ⟨EngineKind.FilterRescaler, ?_, ?_⟩ <;>
        cases hi : s._internal <;> simp_all

/-- Witness of C5 (amended): `CreateInternal` on a data track. -/
theorem createInternal_failure_outcome_witness :
    ((TranscodeFilter.construct sampleDataTrack sampleDataTrack).CreateInternal sampleWorld).2._internal
      = none :=
  ((createInternal_failure_outcome sampleWorld
    (TranscodeFilter.construct sampleDataTrack sampleDataTrack) (by decide)).2.2.1
    (by decide) (by decide)).1


/-- The instances held after one more call. -/
theorem heldAfter_concat (t : List Event) (ev : Event) :
    heldAfter (t ++ [ev]) = heldStep (heldAfter t) ev := by
  simp [heldAfter, List.foldl_append]

/-- The discipline extends over one more call that respects it. -/
theorem EngineDiscipline.concat {t : List Event} {ev : Event} (h : EngineDiscipline t)
    (hheld : (heldStep (heldAfter t) ev).length ≤ 1)
    (hrel : ∀ id, ev = Event.Release id → Event.Stop id ∈ t)
    (hsend : ∀ id f, ev = Event.Send id f → Event.Stop id ∉ t) :
    EngineDiscipline (t ++ [ev]) := by
  intro p hp
  rcases List.prefix_concat_iff.mp hp with rfl | hp1
  · refine ⟨by rw [heldAfter_concat]; exact hheld, ?_, ?_⟩
    · intro q id hq
      obtain ⟨h1, h2⟩ := List.append_inj' hq rfl
      subst h1
      exact hrel id (by simpa using h2)
    · intro q id f hq
      obtain ⟨h1, h2⟩ := List.append_inj' hq rfl
      subst h1
      exact hsend id f (by simpa using h2)
  · exact h p hp1

/-- The invariant survives a call that touches no engine lifecycle (a log line,
`SetTracks`, `Start`). -/
theorem TranscodeFilter.Sound.neutral {s s1 : TranscodeFilter} (h : s.Sound) (ev : Event)
    (ht : s1.trace = s.trace ++ [ev]) (hi : s1._internal = s._internal)
    (hm : s1.engines_made = s.engines_made)
    (hheld : ∀ l, heldStep l ev = l) (hrel : ∀ id, ev ≠ Event.Release id)
    (hsend : ∀ id f, ev ≠ Event.Send id f) (hstop : ∀ id, ev ≠ Event.Stop id) : s1.Sound := by
  have hmem : ∀ id, Event.Stop id ∈ s1.trace → Event.Stop id ∈ s.trace := by
    intro id hid
    rw [ht, List.mem_append, List.mem_singleton] at hid
    rcases hid with hid | hid
    · exact hid
    · exact absurd hid.symm (hstop id)
  refine ⟨?_, ?_, ?_, ?_, ?_⟩
  · rw [ht]
    refine h.discipline.concat ?_ (fun id hid => absurd hid (hrel id))
      (fun id f hid => absurd hid (hsend id f))
    rw [hheld, h.held]
    cases s._internal <;> simp
  · rw [ht, heldAfter_concat, hheld, hi, h.held]
  · intro id hid
    rw [hm]
    exact h.fresh id (hmem id hid)
  · intro e he
    rw [hm]
    exact h.bound e (hi ▸ he)
  · intro e he hid
    exact h.live e (hi ▸ he) (hmem _ hid)

/-- The invariant does not depend on the fields that hold no engine. -/
theorem TranscodeFilter.Sound.congr {s s1 : TranscodeFilter} (h : s.Sound)
    (ht : s1.trace = s.trace) (hi : s1._internal = s._internal)
    (hm : s1.engines_made = s.engines_made) : s1.Sound := by
  refine ⟨?_, ?_, ?_, ?_, ?_⟩
  · rw [ht]; exact h.discipline
  · rw [ht, hi]; exact h.held
  · rw [ht, hm]; exact h.fresh
  · rw [hi, hm]; exact h.bound
  · rw [hi, ht]; exact h.live


/-- A freshly constructed stage satisfies the invariant. -/
theorem TranscodeFilter.Sound.construct (input output : MediaTrack) :
    (TranscodeFilter.construct input output).Sound := by
  refine ⟨?_, ?_, ?_, ?_, ?_⟩
  · intro p hp
    have hp0 : p = [] := by simpa [TranscodeFilter.construct] using hp
    subst hp0
    refine ⟨by simp [heldAfter], ?_, ?_⟩
    · intro q id hq
      exact absurd hq.symm (by simp)
    · intro q id f hq
      exact absurd hq.symm (by simp)
  · simp [TranscodeFilter.construct, heldAfter]
  · intro id hid
    simp [TranscodeFilter.construct] at hid
  · intro e he
    simp [TranscodeFilter.construct] at he
  · intro e he
    simp [TranscodeFilter.construct] at he

/-- Stopping and dropping the engine held keeps the invariant, and leaves no
engine. -/
theorem TranscodeFilter.Sound.dropInternal {s : TranscodeFilter} (h : s.Sound) :
    s.dropInternal.Sound ∧ s.dropInternal._internal = none ∧
    s.dropInternal.engines_made = s.engines_made := by
  unfold TranscodeFilter.dropInternal
  cases hi : s._internal with
  | none => exact ⟨h, hi, rfl⟩
  | some e =>
    have hheld : heldAfter s.trace = [e.id] := by rw [h.held, hi]; rfl
    have hstop : EngineDiscipline (s.trace ++ [Event.Stop e.id]) :=
      h.discipline.concat (by simp [heldStep, hheld]) (by simp) (by simp)
    have hrel : EngineDiscipline (s.trace ++ [Event.Stop e.id] ++ [Event.Release e.id]) :=
      hstop.concat (by simp [heldStep, heldAfter_concat, hheld]) (by simp) (by simp)
    refine ⟨⟨?_, ?_, ?_, ?_, ?_⟩, rfl, rfl⟩
    · simpa using hrel
    · have : s.trace ++ [Event.Stop e.id, Event.Release e.id] =
          s.trace ++ [Event.Stop e.id] ++ [Event.Release e.id] := by simp
      simp only [this, heldAfter_concat, hheld, heldStep]
      simp
    · intro id hid
      simp only [List.mem_append, List.mem_cons, Event.Stop.injEq, reduceCtorEq,
        List.mem_singleton, List.not_mem_nil, or_false] at hid
      rcases hid with hid | hid
      · exact h.fresh id hid
      · rw [hid]; exact h.bound e hi
    · intro e1 he1
      simp at he1
    · intro e1 he1
      simp at he1

/-- Building an engine when none is held keeps the invariant. -/
theorem TranscodeFilter.Sound.build {s : TranscodeFilter} (h : s.Sound) (hi : s._internal = none)
    (w : World) (kind : EngineKind) : (s.build w kind).2.Sound := by
  have hheld : heldAfter s.trace = [] := by rw [h.held, hi]; rfl
  have hnew : Event.Stop s.engines_made ∉ s.trace := fun hm => lt_irrefl _ (h.fresh _ hm)
  have h1 : EngineDiscipline (s.trace ++ [Event.Create s.engines_made kind]) :=
    h.discipline.concat (by simp [heldStep, hheld]) (by simp) (by simp)
  have h2 : EngineDiscipline (s.trace ++ [Event.Create s.engines_made kind] ++
      [Event.SetTracks s.engines_made s._input_track s._output_track]) :=
    h1.concat (by simp [heldStep, heldAfter_concat, hheld]) (by simp) (by simp)
  have h3 : EngineDiscipline (s.trace ++ [Event.Create s.engines_made kind] ++
      [Event.SetTracks s.engines_made s._input_track s._output_track] ++
      [Event.Start s.engines_made (w s.engines_made kind).start_result]) :=
    h2.concat (by rw [heldAfter_concat, heldAfter_concat, hheld]; simp [heldStep]) (by simp) (by simp)
  unfold TranscodeFilter.build
  refine ⟨?_, ?_, ?_, ?_, ?_⟩
  · simpa using h3
  · have : s.trace ++ [Event.Create s.engines_made kind,
        Event.SetTracks s.engines_made s._input_track s._output_track,
        Event.Start s.engines_made (w s.engines_made kind).start_result] =
        s.trace ++ [Event.Create s.engines_made kind] ++
        [Event.SetTracks s.engines_made s._input_track s._output_track] ++
        [Event.Start s.engines_made (w s.engines_made kind).start_result] := by simp
    simp only [this, heldAfter_concat, hheld, heldStep]
    simp
  · intro id hid
    simp only [List.mem_append, List.mem_cons, reduceCtorEq, List.not_mem_nil, or_false] at hid
    exact Nat.lt_succ_of_lt (h.fresh id hid)
  · intro e he
    simp only [Option.some.injEq] at he
    subst he
    exact Nat.lt_succ_self _
  · intro e he
    simp only [Option.some.injEq] at he
    subst he
    simpa using hnew

/-- The method `CreateInternal` keeps the invariant. -/
theorem TranscodeFilter.Sound.createInternal {s : TranscodeFilter} (h : s.Sound) (w : World) :
    (s.CreateInternal w).2.Sound := by
  obtain ⟨hd, hn, _⟩ := h.dropInternal
  unfold TranscodeFilter.CreateInternal
  simp only []
  split
  · exact hd.build hn w _
  · exact hd.build hn w _
  · exact hd.neutral (Event.LogUnsupportedMediaType) rfl rfl rfl
      (by simp [heldStep]) (by simp) (by simp) (by simp)

/-- The method `IsNeedUpdate` keeps the invariant. -/
theorem TranscodeFilter.Sound.isNeedUpdate {s : TranscodeFilter} (h : s.Sound) (f : MediaFrame) :
    (s.IsNeedUpdate f).2.Sound := by
  unfold TranscodeFilter.IsNeedUpdate
  cases hi : s._internal with
  | none => exact h
  | some e =>
    simp only []
    split_ifs
    · exact h
    · exact h.neutral (Event.LogTimestampJump s._last_timestamp f.pts) rfl hi.symm rfl
        (by simp [heldStep]) (by simp) (by simp) (by simp)
    · exact h.neutral (Event.LogResolutionChange f.width f.height) rfl hi.symm rfl
        (by simp [heldStep]) (by simp) (by simp) (by simp)
    · exact h.neutral (Event.LogXmaRecreate) rfl hi.symm rfl
        (by simp [heldStep]) (by simp) (by simp) (by simp)
    · exact h.congr rfl hi.symm rfl

/-- Forwarding a frame to the engine held keeps the invariant. -/
theorem TranscodeFilter.Sound.send {s : TranscodeFilter} (h : s.Sound) (e : FilterBase)
    (hi : s._internal = some e) (f : MediaFrame) :
    TranscodeFilter.Sound { s with trace := s.trace ++ [Event.Send e.id f] } := by
  have hheld : heldAfter s.trace = [e.id] := by rw [h.held, hi]; rfl
  refine ⟨?_, ?_, ?_, ?_, ?_⟩
  · refine h.discipline.concat (by simp [heldStep, hheld]) (by simp) ?_
    intro id g hid
    simp only [Event.Send.injEq] at hid
    rw [← hid.1]
    exact h.live e hi
  · simp only [heldAfter_concat, heldStep]
    exact h.held
  · intro id hid
    simp only [List.mem_append, List.mem_singleton, reduceCtorEq, or_false] at hid
    exact h.fresh id hid
  · exact h.bound
  · intro e1 he1 hid
    simp only [List.mem_append, List.mem_singleton, reduceCtorEq, or_false] at hid
    exact h.live e1 he1 hid

/-- The method `SendBuffer` keeps the invariant. -/
theorem TranscodeFilter.Sound.sendBuffer {s : TranscodeFilter} (h : s.Sound) (w : World)
    (f : MediaFrame) : (s.SendBuffer w f).2.Sound := by
  have hn := h.isNeedUpdate f
  have hc := hn.createInternal w
  unfold TranscodeFilter.SendBuffer
  simp only []
  split_ifs
  · exact hc.neutral (Event.LogRegenerateFailed) rfl rfl rfl
      (by simp [heldStep]) (by simp) (by simp) (by simp)
  · exact hc
  · split
    · exact hn
    · next e he => exact hn.send e he f

/-- Every step keeps the invariant. -/
theorem TranscodeFilter.Sound.step {s : TranscodeFilter} (h : s.Sound) (w : World) (op : Op) :
    (s.step w op).Sound := by
  cases op with
  | Configure id i o =>
    have h1 : TranscodeFilter.Sound
        { s with
          _id := id, _input_track := i, _output_track := o
          _timestamp_jump_threshold := wrap64 (i.timescale * PTS_INCREMENT_LIMIT) } :=
      h.congr rfl rfl rfl
    exact h1.createInternal w
  | SendBuffer f => exact h.sendBuffer w f
  | Stop => exact h.dropInternal.1
  | Flush => exact h
  | EngineReport st ok =>
    simp only [TranscodeFilter.step, TranscodeFilter.engineReport]
    cases hi : s._internal with
    | none => exact h
    | some e =>
      refine ⟨h.discipline, ?_, h.fresh, ?_, ?_⟩
      · rw [h.held, hi]; rfl
      · intro e1 he1
        simp only [Option.some.injEq] at he1
        subst he1
        exact h.bound e hi
      · intro e1 he1
        simp only [Option.some.injEq] at he1
        subst he1
        exact h.live e hi

/-- Every sequence of steps keeps the invariant. -/
theorem TranscodeFilter.Sound.run (w : World) (ops : List Op) {s : TranscodeFilter} (h : s.Sound) :
    (s.run w ops).Sound := by
  induction ops generalizing s with
  | nil => exact h
  | cons op ops ih => exact ih (h.step w op)

/-- C7: for every sequence of operations on a freshly constructed stage
(`Configure`, `SendBuffer`, `Stop`, `Flush`, with the engine worker reporting in
between) and every behaviour of the engines, at every point of the trace at
most one engine instance is held, a handle is dropped only after `Stop()` was
called on its engine, and no engine receives `SendBuffer` after its `Stop()`;
the instance held at the end is the one in `_internal`. -/
theorem engine_lifecycle_discipline (w : World) (input output : MediaTrack) (ops : List Op) :
    EngineDiscipline ((TranscodeFilter.construct input output).run w ops).trace ∧
    heldAfter ((TranscodeFilter.construct input output).run w ops).trace =
      (((TranscodeFilter.construct input output).run w ops)._internal.map FilterBase.id).toList :=
  ⟨(TranscodeFilter.Sound.run w ops (TranscodeFilter.Sound.construct input output)).discipline,
    (TranscodeFilter.Sound.run w ops (TranscodeFilter.Sound.construct input output)).held⟩


/-! ## Theorems: the decode stage -/

/-- The emitted frames of two traces in a row. -/
theorem completions_append (t u : List DecEvent) :
    completions (t ++ u) = completions t ++ completions u := by
  induction t with
  | nil => rfl
  | cons ev t ih => cases ev <;> simp [completions, ih]

/-- Nothing changes nothing. -/
theorem DecoderAAC.Keeps.refl (d : DecoderAAC) : d.Keeps d :=
  ⟨rfl, rfl, fun _ => rfl, rfl, rfl⟩

/-- Two parts in a row. -/
theorem DecoderAAC.Keeps.trans {d d1 d2 : DecoderAAC} (h1 : d.Keeps d1) (h2 : d1.Keeps d2) :
    d.Keeps d2 := by
  obtain ⟨a1, b1, c1, e1, f1⟩ := h1
  obtain ⟨a2, b2, c2, e2, f2⟩ := h2
  refine ⟨a2.trans a1, b2.trans b1, ?_, e2.trans e1, f2.trans f1⟩
  intro hne
  rw [c2 (by rw [c1 hne]; exact hne), c1 hne]

/-- What the dequeue part of an iteration leaves alone. -/
theorem dequeueSection_keeps (d : DecoderAAC) (a : Answers) : d.Keeps (d.dequeueSection a).2 := by
  unfold DecoderAAC.dequeueSection DecoderAAC.Keeps
  split_ifs with h
  · rcases hq : a.dequeued with _ | obj
    · simp [completions_append, completions]
    · rcases obj with _ | p <;> simp only [] <;>
        refine ⟨?_, ?_, ?_, ?_, ?_⟩ <;>
          (split <;> try split_ifs) <;> simp [completions_append, completions]
  · simp

/-- What the submission of an access unit leaves alone. -/
theorem submitUnit_keeps (d : DecoderAAC) (a : Answers) : d.Keeps (d.submitUnit a) := by
  unfold DecoderAAC.submitUnit DecoderAAC.Keeps
  simp only []
  split_ifs <;> simp_all [completions_append, completions]

/-- What feeding the parser leaves alone. -/
theorem feedParser_keeps (d : DecoderAAC) (a : Answers) (data : List Nat) :
    d.Keeps (d.feedParser a data) := by
  unfold DecoderAAC.feedParser DecoderAAC.Keeps
  simp only []
  split_ifs <;> simp [completions_append, completions]

/-- What releasing the packet leaves alone. -/
theorem releaseIfDone_keeps (d : DecoderAAC) : d.Keeps d.releaseIfDone := by
  unfold DecoderAAC.releaseIfDone DecoderAAC.releasePacket DecoderAAC.Keeps
  split
  · simp
  · split_ifs <;> simp

/-- What the parse part of an iteration leaves alone. -/
theorem parseSection_keeps (d : DecoderAAC) (a : Answers) : d.Keeps (d.parseSection a) := by
  unfold DecoderAAC.parseSection
  split
  · exact DecoderAAC.Keeps.refl d
  · split_ifs
    · exact ((feedParser_keeps d a _).trans (submitUnit_keeps _ a)).trans (releaseIfDone_keeps _)
    · exact releaseIfDone_keeps d


/-- The receive part of an iteration either emits nothing and keeps the
bookkeeping, or emits one frame. -/
theorem receiveSection_cases (d : DecoderAAC) (a : Answers) :
    d.Keeps (d.receiveSection a) ∨ ∃ f, d.Emits a.frame_pts (d.receiveSection a) f := by
  unfold DecoderAAC.receiveSection
  simp only []
  by_cases h1 : a.recv_ret = AVERROR_EAGAIN
  · left
    simp [h1, DecoderAAC.Keeps, completions_append, completions]
  · by_cases h2 : a.recv_ret < 0
    · left
      simp [h1, h2, DecoderAAC.Keeps, completions_append, completions]
    · cases hok : a.convert_ok with
      | false =>
        left
        simp only [if_neg h1, if_neg h2, ToMediaFrame, Bool.false_eq_true, if_false]
        unfold DecoderAAC.Keeps
        split_ifs <;> simp [completions_append, completions]
      | true =>
        right
        simp only [if_neg h1, if_neg h2, ToMediaFrame, if_true]
        refine ⟨{ pts := if a.frame_pts = AV_NOPTS_VALUE then
                    (if d._last_pkt_pts = INT64_MIN then d._first_pkt_pts
                      else wrap64 (d._last_pkt_pts + d._last_pkt_duration))
                  else a.frame_pts
                  duration := a.frame_duration, width := 0, height := 0 }, ?_⟩
        unfold DecoderAAC.Emits DecoderAAC.recoveredPts
        cases hcf : d._change_format <;> simp [completions_append, completions]

/-- An iteration either emits nothing and keeps the bookkeeping, or emits one
frame. -/
theorem iteration_cases (d : DecoderAAC) (a : Answers) :
    d.Keeps (d.iteration a) ∨ ∃ f, d.Emits a.frame_pts (d.iteration a) f := by
  unfold DecoderAAC.iteration
  simp only []
  have h1 := dequeueSection_keeps d a
  split_ifs
  · exact Or.inl h1
  · have h2 := h1.trans (parseSection_keeps (d.dequeueSection a).2 a)
    rcases receiveSection_cases ((d.dequeueSection a).2.parseSection a) a with h3 | ⟨f, h3⟩
    · exact Or.inl (h2.trans h3)
    · right
      obtain ⟨k1, k2, k3, k4, k5⟩ := h2
      obtain ⟨e1, e2, e3, e4, e5, e6⟩ := h3
      refine ⟨f, ?_, e2, ?_, e4, e5, ?_⟩
      · rw [e1, k1, k2]
      · intro hne
        rw [e3 (by rw [k3 hne]; exact hne), k3 hne]
      · intro hne
        rw [e6 (by rw [k3 hne]; exact hne)]
        unfold DecoderAAC.recoveredPts
        rw [k3 hne, k4, k5]

/-- The tags of the frames a run of the loop emits: `DataReady` only once the
format flag is set, and before that `FormatChanged` for the first one. -/
theorem loop_tags (iters : List Answers) (d : DecoderAAC) :
    ∃ n, (completions (d.loop iters).trace).map Prod.fst =
      (completions d.trace).map Prod.fst ++
        (if d._change_format then List.replicate n TranscodeResult.DataReady else expectedTags n) := by
  induction iters generalizing d with
  | nil => exact ⟨0, by cases d._change_format <;> simp [DecoderAAC.loop, expectedTags]⟩
  | cons a rest ih =>
    obtain ⟨n, hn⟩ := ih (d.iteration a)
    have hloop : d.loop (a :: rest) = (d.iteration a).loop rest := rfl
    rw [hloop, hn]
    rcases iteration_cases d a with hk | ⟨f, he⟩
    · exact ⟨n, by rw [hk.1, hk.2.1]⟩
    · refine ⟨n + 1, ?_⟩
      rw [he.1, he.2.1]
      cases d._change_format <;> simp [expectedTags, List.replicate_succ]

/-- C8: in every run of `CodecThread` whose `InitCodec` succeeded, whatever the
collaborators answer, the frames emitted through `Complete` are tagged
`FormatChanged` for the first one and `DataReady` for every later one; a
decoded frame whose conversion to a media frame fails is not emitted and leaves
the format flag as it is. -/
theorem first_emission_tagged_format_changed (d : DecoderAAC) (init : InitAnswers)
    (iters : List Answers) (htrace : d.trace = []) (hinit : (d.InitCodec init).1 = true) :
    (completions (d.CodecThread init iters).trace).map Prod.fst =
      expectedTags (completions (d.CodecThread init iters).trace).length ∧
    (∀ (d1 : DecoderAAC) (a : Answers), a.convert_ok = false →
      completions (d1.receiveSection a).trace = completions d1.trace ∧
      (d1.receiveSection a)._change_format = d1._change_format) := by
  constructor
  · have hstate : (d.InitCodec init).2 = { d with _change_format := false } := by
      unfold DecoderAAC.InitCodec at hinit ⊢
      split_ifs at hinit ⊢
      simp_all
    obtain ⟨n, hn⟩ := loop_tags iters
      { d with _change_format := false, no_data_to_encode := false }
    have hrun : d.CodecThread init iters =
        DecoderAAC.loop { d with _change_format := false, no_data_to_encode := false } iters := by
      unfold DecoderAAC.CodecThread
      simp [hinit, hstate]
    rw [hrun]
    simp only [htrace, completions, List.map_nil, List.nil_append, Bool.false_eq_true,
      if_false] at hn ⊢
    have hlen := congrArg List.length hn
    rw [List.length_map] at hlen
    have hexp : (expectedTags n).length = n := by cases n <;> simp [expectedTags]
    rw [hlen, hexp, hn]
  · intro d1 a hok
    unfold DecoderAAC.receiveSection
    simp only []
    by_cases h1 : a.recv_ret = AVERROR_EAGAIN
    · simp [h1, completions_append, completions]
    · by_cases h2 : a.recv_ret < 0
      · simp [h1, h2, completions_append, completions]
      · simp only [if_neg h1, if_neg h2, hok, ToMediaFrame, Bool.false_eq_true, if_false]
        split_ifs <;> simp [completions_append, completions]


/-- Witness of C8: two iterations that each emit a frame. -/
theorem first_emission_tagged_format_changed_witness :
    (completions (DecoderAAC.construct.CodecThread sampleInit
      [answersA 0 0, answersB 0 0]).trace).map Prod.fst =
      [TranscodeResult.FormatChanged, TranscodeResult.DataReady] :=
  (first_emission_tagged_format_changed DecoderAAC.construct sampleInit
    [answersA 0 0, answersB 0 0] (by decide) (by decide)).1.trans (by decide)

/-- When the codec session never reports a PTS, the frames a run of the loop
emits after the first PTS was saved follow the accumulation rule. -/
theorem loop_accumulated (iters : List Answers) (d : DecoderAAC)
    (hfirst : d._first_pkt_pts ≠ INT64_MIN)
    (hnopts : ∀ a ∈ iters, a.frame_pts = AV_NOPTS_VALUE) :
    ∃ new, emittedFrames (d.loop iters).trace = emittedFrames d.trace ++ new ∧
      Accumulated d._first_pkt_pts d.recoveredPts new := by
  induction iters generalizing d with
  | nil => exact ⟨[], by simp [DecoderAAC.loop], trivial⟩
  | cons a rest ih =>
    have hloop : d.loop (a :: rest) = (d.iteration a).loop rest := rfl
    have ha : a.frame_pts = AV_NOPTS_VALUE := hnopts a (List.mem_cons_self _ _)
    have hrest : ∀ b ∈ rest, b.frame_pts = AV_NOPTS_VALUE :=
      fun b hb => hnopts b (List.mem_cons_of_mem _ hb)
    rcases iteration_cases d a with hk | ⟨f, he⟩
    · obtain ⟨k1, _, k3, k4, k5⟩ := hk
      obtain ⟨new, h1, h2⟩ := ih (d.iteration a) (by rw [k3 hfirst]; exact hfirst) hrest
      refine ⟨new, ?_, ?_⟩
      · rw [hloop, h1]
        unfold emittedFrames
        rw [k1]
      · have hr : (d.iteration a).recoveredPts = d.recoveredPts := by
          unfold DecoderAAC.recoveredPts
          rw [k3 hfirst, k4, k5]
        rw [hr, k3 hfirst] at h2
        exact h2
    · obtain ⟨e1, _, e3, e4, e5, e6⟩ := he
      obtain ⟨new, h1, h2⟩ := ih (d.iteration a) (by rw [e3 hfirst]; exact hfirst) hrest
      refine ⟨f :: new, ?_, ?_⟩
      · rw [hloop, h1]
        unfold emittedFrames
        rw [e1]
        simp
      · have hf : f.pts = d.recoveredPts := by rw [e6 hfirst, if_pos ha]
        have hr : (d.iteration a).recoveredPts =
            if f.pts = INT64_MIN then d._first_pkt_pts else wrap64 (f.pts + f.duration) := by
          unfold DecoderAAC.recoveredPts
          rw [e3 hfirst, e4, e5]
        rw [hr, e3 hfirst] at h2
        exact ⟨hf, h2⟩

/-- Frames that follow the accumulation rule carry the running sums of the
durations, as long as every sum is a PTS an `int64_t` holds other than the
"none" value. -/
theorem accumulated_sum (first : Int) (fs : List MediaFrame) (p : Int)
    (hacc : Accumulated first p fs)
    (hrange : ∀ k, k ≤ fs.length →
      INT64_MIN < p + ((fs.take k).map MediaFrame.duration).sum ∧
      p + ((fs.take k).map MediaFrame.duration).sum ≤ INT64_MAX) :
    ∀ k f, fs[k]? = some f → f.pts = p + ((fs.take k).map MediaFrame.duration).sum := by
  induction fs generalizing p with
  | nil => intro k f hk; simp at hk
  | cons g gs ih =>
    obtain ⟨hg, hrestacc⟩ := hacc
    have h0 := hrange 0 (Nat.zero_le _)
    have h1 := hrange 1 (by simp)
    simp only [List.take_zero, List.map_nil, List.sum_nil, add_zero] at h0
    simp only [List.take_succ_cons, List.take_zero, List.map_cons, List.map_nil, List.sum_cons,
      List.sum_nil, add_zero] at h1
    have hne : g.pts ≠ INT64_MIN := by rw [hg]; exact ne_of_gt h0.1
    rw [if_neg hne, hg, wrap64_of_range (le_of_lt h1.1) h1.2] at hrestacc
    have hih := ih (p + g.duration) hrestacc (by
      intro k hk
      have := hrange (k + 1) (by simpa using hk)
      simpa [List.take_succ_cons, add_assoc] using this)
    intro k f hk
    cases k with
    | zero =>
      simp only [List.getElem?_cons_zero, Option.some.injEq] at hk
      subst hk
      simp [hg]
    | succ k =>
      simp only [List.getElem?_cons_succ] at hk
      rw [hih k f hk]
      simp [List.take_succ_cons, add_assoc]

/-- The first input event of two traces in a row. -/
theorem nextInput_append (t u : List DecEvent) :
    nextInput (t ++ u) = match nextInput t with
      | some ev => some ev
      | none => nextInput u := by
  induction t with
  | nil =>
    simp only [List.nil_append, nextInput]
  | cons ev t ih => cases ev <;> simp [nextInput, ih]

/-- A first input event stays the first one when the trace grows. -/
theorem nextInput_of_extends {t u : List DecEvent} {ev : DecEvent} (h : t <+: u)
    (hev : nextInput t = some ev) : nextInput u = some ev := by
  obtain ⟨v, rfl⟩ := h
  rw [nextInput_append, hev]

/-- The dequeue part of an iteration either does nothing, or calls `Dequeue`
once. -/
theorem dequeueSection_trace (d : DecoderAAC) (a : Answers) :
    d.dequeueSection a = (false, d) ∨
    (d.dequeueSection a).2.trace = d.trace ++ [DecEvent.Dequeue a.dequeued] := by
  unfold DecoderAAC.dequeueSection
  split_ifs with h
  · right
    rcases hq : a.dequeued with _ | obj
    · rfl
    · rcases obj with _ | p <;> simp only [] <;> (split <;> try split_ifs) <;> rfl
  · exact Or.inl rfl

/-- The submission of an access unit only extends the trace, and revives no
invalid payload. -/
theorem submitUnit_extends (d : DecoderAAC) (a : Answers) :
    d.trace <+: (d.submitUnit a).trace ∧
    (d._cur_data = none → (d.submitUnit a)._cur_data = none) := by
  unfold DecoderAAC.submitUnit
  simp only []
  split_ifs <;> simp_all

/-- The parse part of an iteration only extends the trace. -/
theorem parseSection_extends (d : DecoderAAC) (a : Answers) :
    d.trace <+: (d.parseSection a).trace := by
  have hrel : ∀ d1 : DecoderAAC, d1.releaseIfDone.trace = d1.trace := by
    intro d1
    unfold DecoderAAC.releaseIfDone DecoderAAC.releasePacket
    split
    · rfl
    · split_ifs <;> rfl
  unfold DecoderAAC.parseSection
  split
  · exact List.prefix_refl _
  · rw [hrel]
    split_ifs
    · refine List.IsPrefix.trans ?_ (submitUnit_extends _ a).1
      unfold DecoderAAC.feedParser
      simp only []
      split_ifs <;> simp
    · exact List.prefix_refl _

/-- The receive part of an iteration adds no input event and leaves the
current packet alone. -/
theorem receiveSection_extends (d : DecoderAAC) (a : Answers) :
    nextInput (d.receiveSection a).trace = nextInput d.trace ∧
    d.trace <+: (d.receiveSection a).trace ∧
    (d.receiveSection a)._cur_pkt = d._cur_pkt ∧
    (d.receiveSection a)._cur_data = d._cur_data ∧
    (d.receiveSection a)._pkt_offset = d._pkt_offset := by
  have hin : ∀ ev : DecEvent, nextInput [ev] = none →
      nextInput (d.trace ++ [ev]) = nextInput d.trace := by
    intro ev hev
    rw [nextInput_append, hev]
    cases nextInput d.trace <;> rfl
  have hin2 : ∀ ev1 ev2 : DecEvent, nextInput [ev1] = none → nextInput [ev2] = none →
      nextInput (d.trace ++ [ev1] ++ [ev2]) = nextInput d.trace := by
    intro ev1 ev2 h1 h2
    rw [nextInput_append, hin ev1 h1, h2]
    cases nextInput d.trace <;> rfl
  have hin3 : ∀ ev1 ev2 ev3 : DecEvent, nextInput [ev1] = none → nextInput [ev2] = none →
      nextInput [ev3] = none →
      nextInput (d.trace ++ [ev1] ++ [ev2] ++ [ev3]) = nextInput d.trace := by
    intro ev1 ev2 ev3 h1 h2 h3
    rw [nextInput_append, hin2 ev1 ev2 h1 h2, h3]
    cases nextInput d.trace <;> rfl
  unfold DecoderAAC.receiveSection
  simp only []
  by_cases h1 : a.recv_ret = AVERROR_EAGAIN
  · rw [if_pos h1]
    exact ⟨hin _ rfl, by simp, rfl, rfl, rfl⟩
  · by_cases h2 : a.recv_ret < 0
    · rw [if_neg h1, if_pos h2]
      exact ⟨hin2 _ _ rfl rfl, by simp, rfl, rfl, rfl⟩
    · rw [if_neg h1, if_neg h2]
      simp only [ToMediaFrame]
      refine ⟨?_, ?_, ?_, ?_, ?_⟩
      · cases hok : a.convert_ok <;> cases hcf : d._change_format <;>
          simp only [Bool.false_eq_true, if_false, if_true]
        · exact hin2 _ _ rfl rfl
        · exact hin _ rfl
        · exact hin3 _ _ _ rfl rfl rfl
        · exact hin2 _ _ rfl rfl
      · cases hok : a.convert_ok <;> cases hcf : d._change_format <;> simp
      · cases hok : a.convert_ok <;> cases hcf : d._change_format <;> rfl
      · cases hok : a.convert_ok <;> cases hcf : d._change_format <;> rfl
      · cases hok : a.convert_ok <;> cases hcf : d._change_format <;> rfl


/-- An iteration only extends the trace. -/
theorem iteration_extends (d : DecoderAAC) (a : Answers) : d.trace <+: (d.iteration a).trace := by
  have h1 : d.trace <+: (d.dequeueSection a).2.trace := by
    rcases dequeueSection_trace d a with h | h
    · rw [h]
    · rw [h]; exact List.prefix_append _ _
  unfold DecoderAAC.iteration
  simp only []
  split_ifs
  · exact h1
  · exact (h1.trans (parseSection_extends _ a)).trans (receiveSection_extends _ a).2.1

/-- A stage that takes its next input from the queue still does so after an
iteration. -/
theorem iteration_awaits (d : DecoderAAC) (a : Answers) (h : d.AwaitsPacket) :
    (d.iteration a).AwaitsPacket := by
  rcases h with ⟨hdata, hnone⟩ | ⟨got, hgot⟩
  · rcases dequeueSection_trace d a with hd | hd
    · left
      have hp : d.parseSection a = d := by
        unfold DecoderAAC.parseSection
        rw [hdata]
      have hr := receiveSection_extends d a
      unfold DecoderAAC.iteration
      simp only [hd, Bool.false_eq_true, if_false, hp]
      exact ⟨by rw [hr.2.2.2.1, hdata], by rw [hr.1, hnone]⟩
    · right
      refine ⟨a.dequeued, ?_⟩
      have hfirst : nextInput (d.dequeueSection a).2.trace = some (DecEvent.Dequeue a.dequeued) := by
        rw [hd, nextInput_append, hnone]
        rfl
      unfold DecoderAAC.iteration
      simp only []
      split_ifs
      · exact hfirst
      · exact nextInput_of_extends
          ((parseSection_extends _ a).trans (receiveSection_extends _ a).2.1) hfirst
  · exact Or.inr ⟨got, nextInput_of_extends (iteration_extends d a) hgot⟩

/-- A stage that takes its next input from the queue still does so after any
number of iterations. -/
theorem loop_awaits (rest : List Answers) (d : DecoderAAC) (h : d.AwaitsPacket) :
    (d.loop rest).AwaitsPacket := by
  induction rest generalizing d with
  | nil => exact h
  | cons a rest ih => exact ih (d.iteration a) (iteration_awaits d a h)

/-- A run of the loop only extends the trace. -/
theorem loop_extends (rest : List Answers) (d : DecoderAAC) : d.trace <+: (d.loop rest).trace := by
  induction rest generalizing d with
  | nil => exact List.prefix_refl _
  | cons a rest ih => exact (iteration_extends d a).trans (ih (d.iteration a))

/-- An iteration extends what its dequeue part has traced. -/
theorem iteration_extends_dequeue (d : DecoderAAC) (a : Answers) :
    (d.dequeueSection a).2.trace <+: (d.iteration a).trace := by
  unfold DecoderAAC.iteration
  simp only []
  split_ifs
  · exact List.prefix_refl _
  · exact (parseSection_extends _ a).trans (receiveSection_extends _ a).2.1

/-- With no current packet, and the queue not empty or the codec session out of
data, the dequeue part of an iteration calls `Dequeue`; when that yields a
packet with a non-empty payload, the packet becomes the current one, with the
drain cursor at its first byte, and the iteration goes on. -/
theorem dequeueSection_takes (d : DecoderAAC) (a : Answers) (hcur : d._cur_pkt = none)
    (hq : a.queue_empty = false ∨ d.no_data_to_encode = true) :
    (d.dequeueSection a).2.trace = d.trace ++ [DecEvent.Dequeue a.dequeued] ∧
    ∀ (p : MediaPacket) (data : List Nat), a.dequeued = some (some p) → p.data = some data →
      data ≠ [] →
      d.dequeueSection a = (false,
        { d with
          trace := d.trace ++ [DecEvent.Dequeue a.dequeued]
          no_data_to_encode := false
          _cur_pkt := some p
          _cur_data := some data
          _pkt_offset := 0 }) := by
  constructor
  · unfold DecoderAAC.dequeueSection
    rw [if_pos ⟨hcur, hq⟩]
    rcases hd : a.dequeued with _ | obj
    · rfl
    · rcases obj with _ | p <;> simp only [] <;> (split <;> try split_ifs) <;> rfl
  · intro p data hd hp hne
    unfold DecoderAAC.dequeueSection
    rw [if_pos ⟨hcur, hq⟩]
    simp [hd, hp, hne]

/-- With a payload at hand and the drain cursor inside it, the parse part of an
iteration starts with a parser call on the bytes from the cursor on. -/
theorem parseSection_parses (d : DecoderAAC) (a : Answers) (data : List Nat)
    (hdata : d._cur_data = some data) (hoff : d._pkt_offset < data.length) :
    d.trace ++ [DecEvent.Parse (data.drop d._pkt_offset)
      (match d._cur_pkt with
        | some p => p.pts
        | none => 0)] <+: (d.parseSection a).trace := by
  have hrel : ∀ d1 : DecoderAAC, d1.releaseIfDone.trace = d1.trace := by
    intro d1
    unfold DecoderAAC.releaseIfDone DecoderAAC.releasePacket
    split
    · rfl
    · split_ifs <;> rfl
  unfold DecoderAAC.parseSection
  simp only [hdata, if_pos hoff]
  rw [hrel]
  refine List.IsPrefix.trans ?_ (submitUnit_extends _ a).1
  unfold DecoderAAC.feedParser
  simp only []
  split_ifs <;> simp

/-- The receive part of an iteration polls the codec session. -/
theorem receiveSection_polls (d : DecoderAAC) (a : Answers) :
    d.trace ++ [DecEvent.ReceiveFrame a.recv_ret] <+: (d.receiveSection a).trace := by
  unfold DecoderAAC.receiveSection
  simp only []
  by_cases h1 : a.recv_ret = AVERROR_EAGAIN
  · rw [if_pos h1]
  · by_cases h2 : a.recv_ret < 0
    · rw [if_neg h1, if_pos h2]
      simp
    · rw [if_neg h1, if_neg h2]
      simp only [ToMediaFrame]
      cases hok : a.convert_ok <;> cases hcf : d._change_format <;> simp

/-- Every iteration makes at least one call. -/
theorem iteration_progress (d : DecoderAAC) (a : Answers) :
    d.trace.length + 1 ≤ (d.iteration a).trace.length := by
  rcases dequeueSection_trace d a with h | h
  · have h1 : d.iteration a = (d.parseSection a).receiveSection a := by
      unfold DecoderAAC.iteration
      simp [h]
    rw [h1]
    have h2 := (parseSection_extends d a).length_le
    have h3 := (receiveSection_polls (d.parseSection a) a).length_le
    simp only [List.length_append, List.length_singleton] at h3
    omega
  · have h2 := (iteration_extends_dequeue d a).length_le
    rw [h, List.length_append, List.length_singleton] at h2
    exact h2

/-- A run of the loop makes at least one call per iteration. -/
theorem loop_progress (rest : List Answers) (d : DecoderAAC) :
    d.trace.length + rest.length ≤ (d.loop rest).trace.length := by
  induction rest generalizing d with
  | nil => simp [DecoderAAC.loop]
  | cons a rest ih =>
    have h1 := iteration_progress d a
    have h2 := ih (d.iteration a)
    have h3 : d.loop (a :: rest) = (d.iteration a).loop rest := rfl
    rw [h3, List.length_cons]
    omega

/-- From a state with no current packet, an iteration that finds the queue not
empty (or the codec session out of data) starts with the `Dequeue` of the next
packet, and when that packet has a non-empty payload the parser is then fed
that payload from its first byte; the rest of the loop only adds to this. -/
theorem loop_takes_next_packet (d0 : DecoderAAC) (next : Answers) (rest : List Answers)
    (hcur : d0._cur_pkt = none)
    (hq : next.queue_empty = false ∨ d0.no_data_to_encode = true) :
    d0.trace ++ [DecEvent.Dequeue next.dequeued] <+: (d0.loop (next :: rest)).trace ∧
    ∀ (p : MediaPacket) (bytes : List Nat), next.dequeued = some (some p) →
      p.data = some bytes → bytes ≠ [] →
      d0.trace ++ [DecEvent.Dequeue (some (some p)), DecEvent.Parse bytes p.pts] <+:
        (d0.loop (next :: rest)).trace := by
  have htake := dequeueSection_takes d0 next hcur hq
  have hloop : d0.loop (next :: rest) = (d0.iteration next).loop rest := rfl
  constructor
  · have hext := (iteration_extends_dequeue d0 next).trans (loop_extends rest _)
    rw [htake.1] at hext
    rw [hloop]
    exact hext
  · intro p bytes hp hbytes hne
    have hd := htake.2 p bytes hp hbytes hne
    have hpos : 0 < bytes.length := List.length_pos.mpr hne
    have hps := parseSection_parses
      { d0 with
        trace := d0.trace ++ [DecEvent.Dequeue next.dequeued]
        no_data_to_encode := false
        _cur_pkt := some p
        _cur_data := some bytes
        _pkt_offset := 0 } next bytes rfl hpos
    simp only [List.drop_zero, List.append_assoc, List.singleton_append] at hps
    have hit : d0.iteration next =
        (DecoderAAC.parseSection
          { d0 with
            trace := d0.trace ++ [DecEvent.Dequeue next.dequeued]
            no_data_to_encode := false
            _cur_pkt := some p
            _cur_data := some bytes
            _pkt_offset := 0 } next).receiveSection next := by
      unfold DecoderAAC.iteration
      simp only [hd, Bool.false_eq_true, if_false]
    rw [hloop, hit, ← hp]
    exact (hps.trans (receiveSection_extends _ next).2.1).trans (loop_extends rest _)

/-- C10: when, in an iteration, the parser is fed a non-empty remainder of the
current packet and returns a non-positive consumed-byte count, then at the end
of that iteration there is no current packet, no current payload, and the drain
cursor is 0.  The loop goes on: every further iteration makes at least one
call, and whatever the collaborators answer, the first input processed from
the next iteration on is never a parser call.  When the next iteration finds
the queue not empty (or the codec session was out of data), its first input is
the `Dequeue` of the next packet, and when that packet has a non-empty payload
the parser is fed that payload from its first byte. -/
theorem parse_failure_discards_packet (d : DecoderAAC) (a : Answers) (d1 : DecoderAAC)
    (data : List Nat)
    (hdeq : d.dequeueSection a = (false, d1))
    (hdata : d1._cur_data = some data) (hoff : d1._pkt_offset < data.length)
    (hfail : a.parser.parsed_size ≤ 0) :
    ((d.iteration a)._cur_pkt = none ∧ (d.iteration a)._cur_data = none ∧
      (d.iteration a)._pkt_offset = 0) ∧
    (∀ (rest : List Answers),
      rest.length ≤ (DecoderAAC.loop { d.iteration a with trace := [] } rest).trace.length ∧
      (∀ (input : List Nat) (pts : Int),
        nextInput (DecoderAAC.loop { d.iteration a with trace := [] } rest).trace ≠
          some (DecEvent.Parse input pts)) ∧
      (nextInput (DecoderAAC.loop { d.iteration a with trace := [] } rest).trace = none ∨
        ∃ got, nextInput (DecoderAAC.loop { d.iteration a with trace := [] } rest).trace =
          some (DecEvent.Dequeue got))) ∧
    (∀ (next : Answers) (rest : List Answers),
      next.queue_empty = false ∨ (d.iteration a).no_data_to_encode = true →
      nextInput (DecoderAAC.loop { d.iteration a with trace := [] } (next :: rest)).trace =
        some (DecEvent.Dequeue next.dequeued) ∧
      ∀ (p : MediaPacket) (bytes : List Nat), next.dequeued = some (some p) →
        p.data = some bytes → bytes ≠ [] →
        [DecEvent.Dequeue (some (some p)), DecEvent.Parse bytes p.pts] <+:
          (DecoderAAC.loop { d.iteration a with trace := [] } (next :: rest)).trace) := by
  have hfed : (d1.feedParser a data)._cur_data = none := by
    unfold DecoderAAC.feedParser
    simp only [if_pos hfail]
  have hsub := (submitUnit_extends (d1.feedParser a data) a).2 hfed
  have hparse : (d1.parseSection a)._cur_pkt = none ∧ (d1.parseSection a)._cur_data = none ∧
      (d1.parseSection a)._pkt_offset = 0 := by
    unfold DecoderAAC.parseSection
    simp only [hdata, if_pos hoff]
    unfold DecoderAAC.releaseIfDone
    rw [hsub]
    exact ⟨rfl, rfl, rfl⟩
  have hrecv := receiveSection_extends (d1.parseSection a) a
  have hiter : d.iteration a = (d1.parseSection a).receiveSection a := by
    unfold DecoderAAC.iteration
    simp [hdeq]
  have hclear : (d.iteration a)._cur_pkt = none ∧ (d.iteration a)._cur_data = none ∧
      (d.iteration a)._pkt_offset = 0 := by
    rw [hiter, hrecv.2.2.1, hrecv.2.2.2.1, hrecv.2.2.2.2]
    exact hparse
  refine ⟨hclear, fun rest => ?_, fun next rest hq => ?_⟩
  · have hstart : DecoderAAC.AwaitsPacket { d.iteration a with trace := [] } :=
      Or.inl ⟨hclear.2.1, rfl⟩
    have hlen := loop_progress rest { d.iteration a with trace := [] }
    simp only [List.length_nil, Nat.zero_add] at hlen
    rcases loop_awaits rest _ hstart with ⟨_, hnone⟩ | ⟨got, hgot⟩
    · exact ⟨hlen, fun input pts => by rw [hnone]; simp, Or.inl hnone⟩
    · exact ⟨hlen, fun input pts => by rw [hgot]; simp, Or.inr ⟨got, hgot⟩⟩
  · have hnext := loop_takes_next_packet { d.iteration a with trace := [] } next rest
      hclear.1 hq
    have hfirst : [DecEvent.Dequeue next.dequeued] <+:
        (DecoderAAC.loop { d.iteration a with trace := [] } (next :: rest)).trace := by
      simpa using hnext.1
    refine ⟨nextInput_of_extends hfirst rfl, ?_⟩
    intro p bytes hp hbytes hne
    simpa using hnext.2 p bytes hp hbytes hne

/-- Witness of C10: `packetA` is dequeued and the parser returns 0 on its four
bytes; the packet is released, and the next iteration dequeues `packetB` and
feeds the parser its two bytes. -/
theorem parse_failure_discards_packet_witness :
    (DecoderAAC.construct.iteration
      { answersA 0 AVERROR_EAGAIN with
        parser := { parsed_size := 0, out_data := [], out_size := 0, pts := AV_NOPTS_VALUE,
                    dts := AV_NOPTS_VALUE, last_pts := AV_NOPTS_VALUE, key_frame := 0 } })._cur_pkt
      = none ∧
    [DecEvent.Dequeue (some (some packetB)), DecEvent.Parse [5, 6] 2024] <+:
      (DecoderAAC.loop
        { DecoderAAC.construct.iteration
            { answersA 0 AVERROR_EAGAIN with
              parser := { parsed_size := 0, out_data := [], out_size := 0, pts := AV_NOPTS_VALUE,
                          dts := AV_NOPTS_VALUE, last_pts := AV_NOPTS_VALUE, key_frame := 0 } } with
          trace := [] }
        [answersB 0 AVERROR_EAGAIN]).trace :=
  have h := parse_failure_discards_packet DecoderAAC.construct
    { answersA 0 AVERROR_EAGAIN with
      parser := { parsed_size := 0, out_data := [], out_size := 0, pts := AV_NOPTS_VALUE,
                  dts := AV_NOPTS_VALUE, last_pts := AV_NOPTS_VALUE, key_frame := 0 } }
    { DecoderAAC.construct with
      _cur_pkt := some packetA, _cur_data := some [1, 2, 3, 4]
      trace := [DecEvent.Dequeue (some (some packetA))] }
    [1, 2, 3, 4] (by decide) (by decide) (by decide) (by decide)
  ⟨h.1.1, (h.2.2 (answersB 0 AVERROR_EAGAIN) [] (by decide)).2 packetB [5, 6]
    (by decide) (by decide) (by decide)⟩

/-- The parser is only ever called with a current packet at hand. -/
theorem iteration_linked (d : DecoderAAC) (a : Answers) (h : d.Linked) : (d.iteration a).Linked := by
  have hdq : (d.dequeueSection a).2.Linked := by
    unfold DecoderAAC.dequeueSection DecoderAAC.Linked at *
    split_ifs with hc
    · rcases hq : a.dequeued with _ | obj
      · simpa using h
      · rcases obj with _ | p
        · simp only []
          (split <;> try split_ifs) <;> simp_all
        · simp only []
          (split <;> try split_ifs) <;> simp_all
    · exact h
  have hps : ∀ d0 : DecoderAAC, d0.Linked → (d0.parseSection a).Linked := by
    intro d0 h0
    have hsu : ∀ d2 : DecoderAAC, d2.Linked → (d2.submitUnit a).Linked := by
      intro d2 h2
      unfold DecoderAAC.submitUnit DecoderAAC.Linked at *
      simp only []
      split_ifs <;> simp_all
    have hrl : ∀ d2 : DecoderAAC, d2.Linked → d2.releaseIfDone.Linked := by
      intro d2 h2
      unfold DecoderAAC.releaseIfDone DecoderAAC.releasePacket DecoderAAC.Linked at *
      split
      · simp
      · split_ifs
        · simp
        · exact h2
    have hfd : ∀ data, (d0.feedParser a data).Linked := by
      intro data
      unfold DecoderAAC.feedParser DecoderAAC.Linked at *
      simp only []
      split_ifs
      · simp
      · exact h0
    unfold DecoderAAC.parseSection
    split
    · exact h0
    · split_ifs
      · exact hrl _ (hsu _ (hfd _))
      · exact hrl _ h0
  unfold DecoderAAC.iteration
  simp only []
  split_ifs
  · exact hdq
  · have hr := receiveSection_extends ((d.dequeueSection a).2.parseSection a) a
    have := hps _ hdq
    unfold DecoderAAC.Linked at this ⊢
    rw [hr.2.2.1, hr.2.2.2.1]
    exact this


/-- A new decode stage has no payload without a packet, and keeps it so. -/
theorem loop_linked (iters : List Answers) : (DecoderAAC.construct.loop iters).Linked := by
  have h : ∀ (l : List Answers) (d : DecoderAAC), d.Linked → (d.loop l).Linked := by
    intro l
    induction l with
    | nil => exact fun d hd => hd
    | cons a l ih => exact fun d hd => ih (d.iteration a) (iteration_linked d a hd)
  exact h iters _ (by simp [DecoderAAC.Linked, DecoderAAC.construct])

/-- The first access unit submitted saves its PTS as the first packet's PTS. -/
theorem submitUnit_saves_first_pts (d : DecoderAAC) (a : Answers)
    (hnone : d._first_pkt_pts = INT64_MIN) (hunit : 0 < d._pkt.size) :
    (d.submitUnit a)._first_pkt_pts = a.parser.pts := by
  unfold DecoderAAC.submitUnit
  simp only [gt_iff_lt, hunit, if_true]
  split_ifs <;> simp_all

/-! ## Theorems: the order of the reconfiguration triggers -/

/-- The method `CreateInternal` logs no resolution change. -/
theorem createInternal_no_resolution_log (w : World) (s : TranscodeFilter) (a b : Int)
    (hm : Event.LogResolutionChange a b ∈ (s.CreateInternal w).2.trace) :
    Event.LogResolutionChange a b ∈ s.trace := by
  unfold TranscodeFilter.CreateInternal TranscodeFilter.dropInternal TranscodeFilter.build at hm
  cases hi : s._internal <;> cases hmt : s._input_track.media_type <;>
    simpa [hi, hmt] using hm

/-- C11: with an engine held, `IsNeedUpdate` tests the triggers in the order
single-track bypass, timestamp discontinuity, geometry change, degraded engine,
and stops at the first that matches.  In particular a frame that matches the
timestamp trigger leaves the input track descriptor as it is, in `IsNeedUpdate`
and in the whole `SendBuffer` call, whatever its width and height, and no
resolution change is logged. -/
theorem triggers_tested_in_order (w : World) (s : TranscodeFilter) (e : FilterBase)
    (buffer : MediaFrame) (he : s._internal = some e) :
    (e.answers.single_track = true → s.IsNeedUpdate buffer = (false, s)) ∧
    (e.answers.single_track = false →
      is_abnormal s._last_timestamp buffer.pts s._timestamp_jump_threshold = true →
      s.IsNeedUpdate buffer = (true,
        { s with
          _last_timestamp := buffer.pts
          trace := s.trace ++ [Event.LogTimestampJump s._last_timestamp buffer.pts] }) ∧
      (s.SendBuffer w buffer).2._input_track = s._input_track ∧
      ∀ a b, Event.LogResolutionChange a b ∈ (s.SendBuffer w buffer).2.trace →
        Event.LogResolutionChange a b ∈ s.trace) ∧
    (e.answers.single_track = false →
      is_abnormal s._last_timestamp buffer.pts s._timestamp_jump_threshold = false →
      s._input_track.media_type = MediaType.Video ∧
        (buffer.width ≠ e.answers.input_width ∨ buffer.height ≠ e.answers.input_height) →
      s.IsNeedUpdate buffer = (true,
        { s with
          _last_timestamp := buffer.pts
          _input_track := { s._input_track with width := buffer.width, height := buffer.height }
          trace := s.trace ++ [Event.LogResolutionChange buffer.width buffer.height] })) ∧
    (e.answers.single_track = false →
      is_abnormal s._last_timestamp buffer.pts s._timestamp_jump_threshold = false →
      ¬ (s._input_track.media_type = MediaType.Video ∧
        (buffer.width ≠ e.answers.input_width ∨ buffer.height ≠ e.answers.input_height)) →
      (e.answers.state = FilterState.ERROR ∧
        s._input_track.codec_module_id = MediaCodecModuleId.XMA ∧
        s._output_track.codec_module_id = MediaCodecModuleId.XMA →
        s.IsNeedUpdate buffer = (true,
          { s with
            _last_timestamp := buffer.pts
            trace := s.trace ++ [Event.LogXmaRecreate] })) ∧
      (¬ (e.answers.state = FilterState.ERROR ∧
        s._input_track.codec_module_id = MediaCodecModuleId.XMA ∧
        s._output_track.codec_module_id = MediaCodecModuleId.XMA) →
        s.IsNeedUpdate buffer = (false, { s with _last_timestamp := buffer.pts }))) := by
  refine ⟨?_, ?_, ?_, ?_⟩
  · intro hs
    simp [TranscodeFilter.IsNeedUpdate, he, hs]
  · intro hs ha
    have hneed := isNeedUpdate_abnormal s buffer e he hs ha
    refine ⟨hneed, ?_, ?_⟩
    · have hk := createInternal_keeps w (s.IsNeedUpdate buffer).2
      unfold TranscodeFilter.SendBuffer
      simp only [hneed, if_true] at hk ⊢
      split_ifs <;> simp [hk]
    · intro a b hm
      unfold TranscodeFilter.SendBuffer at hm
      simp only [hneed, if_true] at hm
      have hlog : ∀ t : TranscodeFilter,
          t = { s with
                _last_timestamp := buffer.pts
                trace := s.trace ++ [Event.LogTimestampJump s._last_timestamp buffer.pts] } →
          Event.LogResolutionChange a b ∈ (t.CreateInternal w).2.trace →
          Event.LogResolutionChange a b ∈ s.trace := by
        intro t ht hin
        have := createInternal_no_resolution_log w t a b hin
        rw [ht] at this
        simpa using this
      split_ifs at hm
      · simp only [List.mem_append, List.mem_singleton, reduceCtorEq, or_false] at hm
        exact hlog _ rfl hm
      · exact hlog _ rfl hm
  · intro hs ha hgeo
    unfold TranscodeFilter.IsNeedUpdate
    simp only [he, hs, ha, Bool.false_eq_true, if_false]
    rw [if_pos hgeo]
  · intro hs ha hgeo
    constructor
    · intro hx
      unfold TranscodeFilter.IsNeedUpdate
      simp only [he, hs, ha, Bool.false_eq_true, if_false]
      rw [if_neg hgeo, if_pos hx]
    · intro hx
      unfold TranscodeFilter.IsNeedUpdate
      simp only [he, hs, ha, Bool.false_eq_true, if_false]
      rw [if_neg hgeo, if_neg hx]

/-- Witness of C11: after a frame at PTS 0, a 1920x1080 frame at PTS 2000000 on
the 1280x720 sample stage; the input track keeps its 1280x720. -/
theorem triggers_tested_in_order_witness :
    (TranscodeFilter.SendBuffer sampleWorld
      (sampleStage.SendBuffer sampleWorld (sampleFrame 0 1280 720)).2
      (sampleFrame 2000000 1920 1080)).2._input_track = sampleVideoTrack :=
  ((triggers_tested_in_order sampleWorld
    (sampleStage.SendBuffer sampleWorld (sampleFrame 0 1280 720)).2
    { id := 0, answers := sampleWorld 0 EngineKind.FilterRescaler }
    (sampleFrame 2000000 1920 1080) (by decide)).2.1 (by decide) (by decide)).2.1


/-! ## Theorems: the HLS media playlist -/

/-- A `uint64_t` subtraction that does not underflow is the difference. -/
theorem sub64_of_le {a b : Nat} (hb : b ≤ a) (ha : a < 2 ^ 64) : sub64 a b = a - b := by
  unfold sub64
  omega

/-- The conversion `%d` writes a number below `2 ^ 31` as it is. -/
theorem renderD_of_lt {n : Nat} (h : n < 2 ^ 31) : renderD n = (n : Int) := by
  unfold renderD
  have h1 : n % 2 ^ 32 = n := Nat.mod_eq_of_lt (by omega)
  rw [h1, if_pos h]

/-- In a map whose keys are `a, a + 1, ..., a + n - 1`, looking up the key
`a + j` finds the entry at position `j`, and iterating from it visits the
entries from position `j` on. -/
theorem SegmentMap.find_consecutive (m : SegmentMap) (a n j : Nat)
    (hkeys : m.map Prod.fst = List.range' a n) (hj : j < n) :
    ∃ e, (m.drop j).head? = some e ∧ e.1 = a + j ∧
      List.find? (fun x => decide (x.1 = a + j)) m = some e ∧
      m.fromKey (a + j) = m.drop j := by
  induction m generalizing a n j with
  | nil =>
    have := congrArg List.length hkeys
    simp at this
    omega
  | cons e t ih =>
    rw [List.map_cons] at hkeys
    obtain ⟨h1, h2, h3⟩ := List.range'_eq_cons_iff.mp hkeys.symm
    cases j with
    | zero =>
      refine ⟨e, rfl, by simp [h1], ?_, ?_⟩
      · simp [List.find?_cons, h1]
      · simp [SegmentMap.fromKey, List.dropWhile_cons, h1]
    | succ j =>
      obtain ⟨x, hx1, hx2, hx3, hx4⟩ := ih (e.1 + 1) (n - 1) j h3 (by omega)
      have hne : e.1 ≠ a + (j + 1) := by omega
      have hsum : e.1 + 1 + j = a + (j + 1) := by omega
      rw [hsum] at hx2 hx3 hx4
      refine ⟨x, by simpa using hx1, hx2, ?_, ?_⟩
      · rw [List.find?_cons]
        simp only [hne, decide_False]
        exact hx3
      · unfold SegmentMap.fromKey at hx4 ⊢
        rw [List.dropWhile_cons]
        simp only [ne_eq, hne, not_false_eq_true, decide_True, if_true, List.drop_succ_cons]
        exact hx4

/-- The segments listed by two texts in a row. -/
theorem listedSegments_append (t u : List PlaylistLine) :
    listedSegments (t ++ u) = listedSegments t ++ listedSegments u := by
  induction t with
  | nil => rfl
  | cons l t ih => cases l <;> simp [listedSegments, ih]

/-- The media sequence values of two texts in a row. -/
theorem mediaSequences_append (t u : List PlaylistLine) :
    mediaSequences (t ++ u) = mediaSequences t ++ mediaSequences u := by
  induction t with
  | nil => rfl
  | cons l t ih => cases l <;> simp [mediaSequences, ih]

/-- The segments listed by the lines written for a run of entries. -/
theorem listedSegments_lines (m : SegmentMap) :
    listedSegments (m.map (fun e => PlaylistLine.SegmentLines e.2)) = m.map Prod.snd ∧
    mediaSequences (m.map (fun e => PlaylistLine.SegmentLines e.2)) = [] := by
  induction m with
  | nil => exact ⟨rfl, rfl⟩
  | cons e t ih => simp [listedSegments, mediaSequences, ih]

/-- The header lists no segment and has no media sequence line. -/
theorem header_lists_nothing (p : HlsMediaPlaylist) (rewind : Bool) :
    listedSegments (p.header rewind) = [] ∧ mediaSequences (p.header rewind) = [] := by
  unfold HlsMediaPlaylist.header
  split_ifs <;> simp [listedSegments, mediaSequences]


/-- What `ToString(false)` does for a playlist that holds `n ≥ 1` segments whose
numbers are the consecutive `uint64_t` values `first, ..., first + n - 1`, each
stored under its number: it writes the header, one media sequence line and the
lines of the last `min n (segment_count + 1)` stored segments in ascending
order; `shift_count` is at most `last_segment_number`, so the unsigned
subtraction is the plain difference; and the value in the media sequence line
is what `%d` makes of the number of the first listed segment, which is that
number as long as the numbers stay below `2 ^ 31`. -/
theorem toString_lists_newest_segments (p : HlsMediaPlaylist) (first n : Nat)
    (hn : 1 ≤ n)
    (hkeys : p._segments.map Prod.fst = List.range' first n)
    (hnum : ∀ e ∈ p._segments, e.2.number = e.1)
    (h64 : first + n ≤ 2 ^ 64) :
    p.ToString false = p.header false ++
        [PlaylistLine.MediaSequence (renderD (first + (n - min n (p._config.segment_count + 1))))] ++
        (p._segments.drop (n - min n (p._config.segment_count + 1))).map
          (fun e => PlaylistLine.SegmentLines e.2) ++
        (if p._end_list = true then [PlaylistLine.EndList] else []) ∧
    listedSegments (p.ToString false) =
      (p._segments.drop (n - min n (p._config.segment_count + 1))).map Prod.snd ∧
    (listedSegments (p.ToString false)).length = min n (p._config.segment_count + 1) ∧
    (listedSegments (p.ToString false)).map Segment.number =
      List.range' (first + (n - min n (p._config.segment_count + 1)))
        (min n (p._config.segment_count + 1)) ∧
    mediaSequences (p.ToString false) =
      [renderD (first + (n - min n (p._config.segment_count + 1)))] ∧
    (first + n ≤ 2 ^ 31 → mediaSequences (p.ToString false) =
      [((first + (n - min n (p._config.segment_count + 1)) : Nat) : Int)]) ∧
    p.shift_count ≤ p.last_segment_number ∧
    sub64 p.last_segment_number p.shift_count = p.last_segment_number - p.shift_count := by
  have hlen : p._segments.length = n := by
    have := congrArg List.length hkeys
    simpa using this
  have hm1 : 1 ≤ min n (p._config.segment_count + 1) := by
    rw [Nat.min_def]; split_ifs <;> omega
  have hmn : min n (p._config.segment_count + 1) ≤ n := Nat.min_le_left _ _
  have hshift : p.shift_count = min n (p._config.segment_count + 1) - 1 := by
    unfold HlsMediaPlaylist.shift_count
    rw [hlen, Nat.min_def]
    split_ifs <;> omega
  have hlast : p.last_segment_number = first + n - 1 := by
    have h1 : (p._segments.map Prod.fst).getLast? = some (first + n - 1) := by
      rw [hkeys, List.getLast?_range']
      simp only [if_neg (show ¬ n = 0 by omega)]
    rw [List.getLast?_map] at h1
    unfold HlsMediaPlaylist.last_segment_number
    cases hl : p._segments.getLast? with
    | none => rw [hl] at h1; simp at h1
    | some e =>
      rw [hl] at h1
      simp only [Option.map_some', Option.some.injEq] at h1
      simp only []
      rw [hnum e (List.mem_of_getLast?_eq_some hl), h1]
  have hsub : sub64 p.last_segment_number p.shift_count =
      first + (n - min n (p._config.segment_count + 1)) := by
    rw [sub64_of_le (by rw [hshift, hlast]; omega) (by rw [hlast]; omega), hshift, hlast]
    omega
  obtain ⟨e, he1, he2, he3, he4⟩ := SegmentMap.find_consecutive p._segments first n
    (n - min n (p._config.segment_count + 1)) hkeys (by omega)
  have hemem : e ∈ p._segments := List.mem_of_mem_drop (List.mem_of_mem_head? he1)
  have henum : e.2.number = first + (n - min n (p._config.segment_count + 1)) := by
    rw [hnum e hemem, he2]
  have hfind : p._segments.find (sub64 p.last_segment_number p.shift_count) = some e.2 := by
    unfold SegmentMap.find
    rw [hsub, he3]
    rfl
  have htext : p.ToString false = p.header false ++
      [PlaylistLine.MediaSequence (renderD (first + (n - min n (p._config.segment_count + 1))))] ++
      (p._segments.drop (n - min n (p._config.segment_count + 1))).map
        (fun e => PlaylistLine.SegmentLines e.2) ++
      (if p._end_list = true then [PlaylistLine.EndList] else []) := by
    unfold HlsMediaPlaylist.ToString
    cases hh : p._segments.head? with
    | none =>
      have : p._segments = [] := by simpa using hh
      rw [this] at hlen
      simp at hlen
      omega
    | some f =>
      simp only [if_true, hfind, henum, he4]
  have hdropnum : ((p._segments.drop (n - min n (p._config.segment_count + 1))).map Prod.snd).map
      Segment.number = (p._segments.drop (n - min n (p._config.segment_count + 1))).map Prod.fst := by
    rw [List.map_map]
    apply List.map_congr_left
    intro x hx
    exact hnum x (List.mem_of_mem_drop hx)
  have hlisted : listedSegments (p.ToString false) =
      (p._segments.drop (n - min n (p._config.segment_count + 1))).map Prod.snd := by
    rw [htext, listedSegments_append, listedSegments_append, listedSegments_append,
      (header_lists_nothing p false).1, (listedSegments_lines _).1]
    cases p._end_list <;> simp [listedSegments]
  have hseq : mediaSequences (p.ToString false) =
      [renderD (first + (n - min n (p._config.segment_count + 1)))] := by
    rw [htext, mediaSequences_append, mediaSequences_append, mediaSequences_append,
      (header_lists_nothing p false).2, (listedSegments_lines _).2]
    cases p._end_list <;> simp [mediaSequences]
  refine ⟨htext, hlisted, ?_, ?_, hseq, ?_, ?_, ?_⟩
  · rw [hlisted, List.length_map, List.length_drop, hlen]
    omega
  · rw [hlisted, hdropnum, List.map_drop, hkeys]
    have hsplit : List.range' first n =
        List.range' first (n - min n (p._config.segment_count + 1)) ++
        List.range' (first + (n - min n (p._config.segment_count + 1)))
          (min n (p._config.segment_count + 1)) := by
      rw [List.range'_append_1]
      congr 1
      omega
    rw [hsplit]
    exact List.drop_left' (List.length_range' _ _ _)
  · intro h31
    rw [hseq, renderD_of_lt (by omega)]
  · rw [hshift, hlast]
    omega
  · rw [hsub, hshift, hlast]
    omega


/-- The sample playlist holds the segments 7 to 11 and is configured for 3
segments; the text lists the 4 segments 8 to 11 with media sequence 8. -/
theorem toString_lists_newest_segments_witness :
    mediaSequences (samplePlaylist.ToString false) = [8] ∧
    (listedSegments (samplePlaylist.ToString false)).length = 4 :=
  have h := toString_lists_newest_segments samplePlaylist 7 5 (by decide) (by decide)
    (by decide) (by norm_num)
  ⟨h.2.2.2.2.2.1 (by norm_num), h.2.2.1⟩

/-- C12 (defect of the code): the playlist holds the one segment 4294967301.
`ToString(false)` lists that segment, as the claim says, but the value in its
`#EXT-X-MEDIA-SEQUENCE` line is 5 and not the number of the first listed
segment: the conversion `%d` keeps the low 32 bits of the 64-bit number. -/
theorem toString_media_sequence_truncated :
    farPlaylist.ToString false =
      [PlaylistLine.ExtM3U, PlaylistLine.Version 3, PlaylistLine.TargetDuration 6,
        PlaylistLine.MediaSequence 5, PlaylistLine.SegmentLines (sampleSegment 4294967301)] ∧
    (listedSegments (farPlaylist.ToString false)).map Segment.number = [4294967301] ∧
    mediaSequences (farPlaylist.ToString false) = [5] := by
  decide

/-- An entry of the map after `emplace` is the new one or an old one. -/
theorem SegmentMap.mem_emplace (m : SegmentMap) (k : Nat) (v : Segment) (x : Nat × Segment)
    (hx : x ∈ m.emplace k v) : x = (k, v) ∨ x ∈ m := by
  induction m with
  | nil => simpa [SegmentMap.emplace] using hx
  | cons e t ih =>
    unfold SegmentMap.emplace at hx
    split_ifs at hx with h1 h2
    · simpa using hx
    · exact Or.inr hx
    · rcases List.mem_cons.mp hx with h | h
      · exact Or.inr (by simp [h])
      · rcases ih h with h3 | h3
        · exact Or.inl h3
        · exact Or.inr (List.mem_cons_of_mem _ h3)

/-- The call `emplace` under a segment's own number keeps the map well formed. -/
theorem SegmentMap.WellFormed.emplace {m : SegmentMap} (h : m.WellFormed) (v : Segment) :
    (m.emplace v.number v).WellFormed := by
  obtain ⟨hsorted, hnum⟩ := h
  refine ⟨?_, ?_⟩
  · clear hnum
    induction m with
    | nil => simp [SegmentMap.emplace]
    | cons e t ih =>
      rw [List.map_cons, List.pairwise_cons] at hsorted
      unfold SegmentMap.emplace
      split_ifs with h1 h2
      · simp only [List.map_cons, List.pairwise_cons]
        refine ⟨?_, hsorted⟩
        intro y hy
        rcases List.mem_cons.mp hy with hy | hy
        · rw [hy]; exact h1
        · exact lt_trans h1 (hsorted.1 y hy)
      · simp only [List.map_cons, List.pairwise_cons]
        exact hsorted
      · simp only [List.map_cons, List.pairwise_cons]
        refine ⟨?_, ih hsorted.2⟩
        intro y hy
        obtain ⟨x, hx, rfl⟩ := List.mem_map.mp hy
        rcases SegmentMap.mem_emplace t v.number v x hx with hx1 | hx1
        · rw [hx1]
          show e.1 < v.number
          omega
        · exact hsorted.1 x.1 (List.mem_map_of_mem _ hx1)
  · intro x hx
    rcases SegmentMap.mem_emplace m v.number v x hx with hx1 | hx1
    · rw [hx1]
    · exact hnum x hx1

/-- The call `erase` keeps the map well formed. -/
theorem SegmentMap.WellFormed.erase {m : SegmentMap} (h : m.WellFormed) (k : Nat) :
    (m.erase k).WellFormed := by
  obtain ⟨hsorted, hnum⟩ := h
  have hsub : List.Sublist (m.erase k) m := List.eraseP_sublist m
  exact ⟨hsorted.sublist (hsub.map Prod.fst), fun x hx => hnum x (hsub.subset hx)⟩

/-- Whatever the packager calls on a new playlist, the map stays well formed:
its keys ascend and every segment is stored under its own number. -/
theorem HlsMediaPlaylist.run_wellFormed (config : HlsMediaPlaylistConfig) (ops : List PlaylistOp) :
    ((HlsMediaPlaylist.construct config).run ops)._segments.WellFormed := by
  have hstep : ∀ (p : HlsMediaPlaylist) (op : PlaylistOp), p._segments.WellFormed →
      (p.step op)._segments.WellFormed := by
    intro p op hp
    cases op with
    | OnSegmentCreated segment => exact hp.emplace segment
    | OnSegmentDeleted segment =>
      show ((p.OnSegmentDeleted segment).2)._segments.WellFormed
      unfold HlsMediaPlaylist.OnSegmentDeleted
      split
      · exact hp
      · exact hp.erase _
    | SetEndList => exact hp
  have hrun : ∀ (l : List PlaylistOp) (p : HlsMediaPlaylist), p._segments.WellFormed →
      (p.run l)._segments.WellFormed := by
    intro l
    induction l with
    | nil => exact fun p hp => hp
    | cons op l ih => exact fun p hp => ih (p.step op) (hstep p op hp)
  exact hrun ops _ ⟨by simp [HlsMediaPlaylist.construct], by simp [HlsMediaPlaylist.construct]⟩


/-! ## Theorems: timestamp recovery from the start of the decode thread -/

/-- The first exchange of two traces in a row. -/
theorem firstExchange_append (t u : List DecEvent) :
    firstExchange (t ++ u) = match firstExchange t with
      | some ev => some ev
      | none => firstExchange u := by
  induction t with
  | nil =>
    simp only [List.nil_append, firstExchange]
  | cons ev t ih => cases ev <;> simp [firstExchange, ih]

/-- A first exchange stays the first one when the trace grows. -/
theorem firstExchange_of_extends {t u : List DecEvent} {ev : DecEvent} (h : t <+: u)
    (hev : firstExchange t = some ev) : firstExchange u = some ev := by
  obtain ⟨v, rfl⟩ := h
  rw [firstExchange_append, hev]

/-- A trace without exchange has emitted nothing. -/
theorem completions_of_no_exchange (t : List DecEvent) (h : firstExchange t = none) :
    completions t = [] := by
  induction t with
  | nil => rfl
  | cons ev t ih => cases ev <;> simp_all [firstExchange, completions]

/-- The dequeue part of an iteration makes no exchange and leaves the timestamp
bookkeeping alone. -/
theorem dequeueSection_no_exchange (d : DecoderAAC) (a : Answers) :
    firstExchange (d.dequeueSection a).2.trace = firstExchange d.trace ∧
    (d.dequeueSection a).2._first_pkt_pts = d._first_pkt_pts ∧
    (d.dequeueSection a).2._last_pkt_pts = d._last_pkt_pts ∧
    (d.dequeueSection a).2._last_pkt_duration = d._last_pkt_duration := by
  refine ⟨?_, ?_⟩
  · rcases dequeueSection_trace d a with h | h
    · rw [h]
    · rw [h, firstExchange_append]
      cases firstExchange d.trace <;> rfl
  · unfold DecoderAAC.dequeueSection
    split_ifs with h
    · rcases hq : a.dequeued with _ | obj
      · simp
      · rcases obj with _ | p <;> simp only [] <;>
          refine ⟨?_, ?_, ?_⟩ <;> (split <;> try split_ifs) <;> rfl
    · simp

/-- Feeding the parser makes no exchange and leaves the saved first PTS alone. -/
theorem feedParser_no_exchange (d : DecoderAAC) (a : Answers) (data : List Nat) :
    firstExchange (d.feedParser a data).trace = firstExchange d.trace ∧
    (d.feedParser a data)._first_pkt_pts = d._first_pkt_pts := by
  unfold DecoderAAC.feedParser
  simp only []
  split_ifs <;> refine ⟨?_, rfl⟩ <;>
    simp only [firstExchange_append, firstExchange] <;>
    cases firstExchange d.trace <;> rfl

/-- Before any exchange and with no first PTS saved, the submission part either
submits nothing and changes neither, or submits an access unit, which is then
the first exchange and whose PTS is then the saved first PTS. -/
theorem submitUnit_first_exchange (d : DecoderAAC) (a : Answers)
    (hq : firstExchange d.trace = none) (hmin : d._first_pkt_pts = INT64_MIN) :
    (firstExchange (d.submitUnit a).trace = none ∧ (d.submitUnit a)._first_pkt_pts = INT64_MIN) ∨
    ∃ pkt ret, firstExchange (d.submitUnit a).trace = some (DecEvent.SendPacket pkt ret) ∧
      (d.submitUnit a)._first_pkt_pts = pkt.pts := by
  unfold DecoderAAC.submitUnit
  simp only []
  by_cases hsize : d._pkt.size > 0
  · right
    rw [if_pos hsize]
    refine ⟨{ d._pkt with
        pts := a.parser.pts
        dts := a.parser.dts
        flags := if a.parser.key_frame = 1 then AV_PKT_FLAG_KEY else 0
        duration :=
          if a.parser.pts ≠ AV_NOPTS_VALUE ∧ a.parser.last_pts ≠ AV_NOPTS_VALUE then
            wrap64 (a.parser.pts - a.parser.last_pts)
          else 0 }, a.send_ret, ?_⟩
    split_ifs <;> simp_all [firstExchange_append, firstExchange]
  · left
    rw [if_neg hsize]
    exact ⟨hq, hmin⟩

/-- Releasing the packet touches neither the trace nor the saved first PTS. -/
theorem releaseIfDone_same (d : DecoderAAC) :
    d.releaseIfDone.trace = d.trace ∧ d.releaseIfDone._first_pkt_pts = d._first_pkt_pts := by
  unfold DecoderAAC.releaseIfDone DecoderAAC.releasePacket
  split
  · exact ⟨rfl, rfl⟩
  · split_ifs <;> exact ⟨rfl, rfl⟩

/-- Before any exchange and with no first PTS saved, the parse part of an
iteration either submits nothing and changes neither, or makes the submission
of an access unit the first exchange and saves its PTS as the first PTS. -/
theorem parseSection_first_exchange (d : DecoderAAC) (a : Answers)
    (hq : firstExchange d.trace = none) (hmin : d._first_pkt_pts = INT64_MIN) :
    (firstExchange (d.parseSection a).trace = none ∧
      (d.parseSection a)._first_pkt_pts = INT64_MIN) ∨
    ∃ pkt ret, firstExchange (d.parseSection a).trace = some (DecEvent.SendPacket pkt ret) ∧
      (d.parseSection a)._first_pkt_pts = pkt.pts := by
  unfold DecoderAAC.parseSection
  split
  · exact Or.inl ⟨hq, hmin⟩
  · next data hdata =>
    split_ifs
    · have hf := feedParser_no_exchange d a data
      have hs := submitUnit_first_exchange (d.feedParser a data) a (by rw [hf.1, hq])
        (by rw [hf.2, hmin])
      have hr := releaseIfDone_same ((d.feedParser a data).submitUnit a)
      rw [hr.1, hr.2]
      exact hs
    · have hr := releaseIfDone_same d
      rw [hr.1, hr.2]
      exact Or.inl ⟨hq, hmin⟩

/-- The receive part of an iteration leaves the saved first PTS alone; either
it emits nothing, makes no exchange and keeps the bookkeeping of the last
frame, or it emits one frame, whose PTS, when the codec session reports none,
is the recovered one, and which is the first exchange if there was none. -/
theorem receiveSection_exchange (d : DecoderAAC) (a : Answers) :
    (d.receiveSection a)._first_pkt_pts = d._first_pkt_pts ∧
    ((completions (d.receiveSection a).trace = completions d.trace ∧
        (d.receiveSection a)._last_pkt_pts = d._last_pkt_pts ∧
        (d.receiveSection a)._last_pkt_duration = d._last_pkt_duration ∧
        firstExchange (d.receiveSection a).trace = firstExchange d.trace) ∨
      ∃ r f, completions (d.receiveSection a).trace = completions d.trace ++ [(r, f)] ∧
        (d.receiveSection a)._last_pkt_pts = f.pts ∧
        (d.receiveSection a)._last_pkt_duration = f.duration ∧
        (a.frame_pts = AV_NOPTS_VALUE → f.pts = d.recoveredPts) ∧
        (firstExchange d.trace = none →
          firstExchange (d.receiveSection a).trace = some (DecEvent.Complete r f))) := by
  have hin : ∀ l : List DecEvent, firstExchange l = none →
      firstExchange (d.trace ++ l) = firstExchange d.trace := by
    intro l hl
    rw [firstExchange_append, hl]
    cases firstExchange d.trace <;> rfl
  constructor
  · unfold DecoderAAC.receiveSection
    simp only [ToMediaFrame]
    split_ifs <;> rfl
  · unfold DecoderAAC.receiveSection
    simp only []
    by_cases h1 : a.recv_ret = AVERROR_EAGAIN
    · rw [if_pos h1]
      exact Or.inl ⟨by simp [completions_append, completions], rfl, rfl, hin _ rfl⟩
    · by_cases h2 : a.recv_ret < 0
      · rw [if_neg h1, if_pos h2]
        refine Or.inl ⟨by simp [completions_append, completions], rfl, rfl, ?_⟩
        simp only [List.append_assoc]
        exact hin _ rfl
      · rw [if_neg h1, if_neg h2]
        cases hok : a.convert_ok with
        | false =>
          left
          cases hcf : d._change_format with
          | false =>
            refine ⟨?_, ?_, ?_, ?_⟩
            · simp [ToMediaFrame, hcf, completions_append, completions]
            · simp [ToMediaFrame, hcf]
            · simp [ToMediaFrame, hcf]
            · simp only [ToMediaFrame, hcf, Bool.false_eq_true, if_false, if_true,
                List.append_assoc]
              exact hin _ rfl
          | true =>
            refine ⟨?_, ?_, ?_, ?_⟩
            · simp [ToMediaFrame, hcf, completions_append, completions]
            · simp [ToMediaFrame, hcf]
            · simp [ToMediaFrame, hcf]
            · simp only [ToMediaFrame, hcf, Bool.false_eq_true, if_false, if_true,
                Bool.true_eq_false]
              exact hin _ rfl
        | true =>
          right
          refine ⟨if d._change_format then TranscodeResult.DataReady
              else TranscodeResult.FormatChanged,
            { pts := if a.frame_pts = AV_NOPTS_VALUE then
                (if d._last_pkt_pts = INT64_MIN then d._first_pkt_pts
                  else wrap64 (d._last_pkt_pts + d._last_pkt_duration))
                else a.frame_pts
              duration := a.frame_duration, width := 0, height := 0 }, ?_, ?_, ?_, ?_, ?_⟩
          · cases hcf : d._change_format <;>
              simp [ToMediaFrame, hcf, completions_append, completions]
          · cases hcf : d._change_format <;> simp [ToMediaFrame, hcf]
          · cases hcf : d._change_format <;> simp [ToMediaFrame, hcf]
          · intro hn
            simp [hn, DecoderAAC.recoveredPts]
          · intro hq
            cases hcf : d._change_format <;>
              simp [ToMediaFrame, hcf, firstExchange_append, firstExchange, hq]

/-- One iteration of a stage that has made no exchange, saved no first PTS and
emitted no frame, the codec session reporting no PTS.  Either the stage is
still in that state; or a frame was emitted before any access unit was
submitted; or the first exchange is the submission of an access unit, whose
PTS is now the saved first PTS, and the iteration emitted nothing, or one frame
with that PTS. -/
theorem iteration_from_start (d : DecoderAAC) (a : Answers)
    (hq : firstExchange d.trace = none) (hmin : d._first_pkt_pts = INT64_MIN)
    (hlast : d._last_pkt_pts = INT64_MIN) (hnopts : a.frame_pts = AV_NOPTS_VALUE) :
    (firstExchange (d.iteration a).trace = none ∧ (d.iteration a)._first_pkt_pts = INT64_MIN ∧
      (d.iteration a)._last_pkt_pts = INT64_MIN) ∨
    (∃ r f, firstExchange (d.iteration a).trace = some (DecEvent.Complete r f)) ∨
    ∃ pkt ret, firstExchange (d.iteration a).trace = some (DecEvent.SendPacket pkt ret) ∧
      (d.iteration a)._first_pkt_pts = pkt.pts ∧
      ((emittedFrames (d.iteration a).trace = [] ∧ (d.iteration a)._last_pkt_pts = INT64_MIN) ∨
        ∃ f, emittedFrames (d.iteration a).trace = [f] ∧ f.pts = pkt.pts ∧
          (d.iteration a)._last_pkt_pts = f.pts ∧ (d.iteration a)._last_pkt_duration = f.duration) := by
  obtain ⟨q1, m1, l1, _⟩ := dequeueSection_no_exchange d a
  rw [hq] at q1
  rw [hmin] at m1
  rw [hlast] at l1
  unfold DecoderAAC.iteration
  simp only []
  split_ifs
  · exact Or.inl ⟨q1, m1, l1⟩
  · obtain ⟨_, _, _, kl, kd⟩ := parseSection_keeps (d.dequeueSection a).2 a
    rw [l1] at kl
    obtain ⟨rf, rcase⟩ := receiveSection_exchange ((d.dequeueSection a).2.parseSection a) a
    rcases parseSection_first_exchange (d.dequeueSection a).2 a q1 m1 with ⟨pq, pm⟩ | ⟨pkt, ret, pq, pm⟩
    · rcases rcase with ⟨_, rl, _, rq⟩ | ⟨r, f, _, _, _, _, rq⟩
      · exact Or.inl ⟨by rw [rq, pq], by rw [rf, pm], by rw [rl, kl]⟩
      · exact Or.inr (Or.inl ⟨r, f, rq pq⟩)
    · refine Or.inr (Or.inr ⟨pkt, ret, ?_, by rw [rf, pm], ?_⟩)
      · exact firstExchange_of_extends (receiveSection_extends _ a).2.1 pq
      · have hc0 : completions ((d.dequeueSection a).2.parseSection a).trace = [] := by
          rw [(parseSection_keeps (d.dequeueSection a).2 a).1]
          exact completions_of_no_exchange _ q1
        rcases rcase with ⟨rc, rl, _, _⟩ | ⟨r, f, rc, rl, rd, rp, _⟩
        · left
          exact ⟨by unfold emittedFrames; rw [rc, hc0]; rfl, by rw [rl, kl]⟩
        · right
          refine ⟨f, by unfold emittedFrames; rw [rc, hc0]; rfl, ?_, rl, rd⟩
          rw [rp hnopts]
          unfold DecoderAAC.recoveredPts
          rw [if_pos kl, pm]

/-- A run of the loop from a stage that has made no exchange, saved no first PTS
and emitted no frame, the codec session reporting no PTS: when the first
exchange of the run is the submission of an access unit with a PTS, the frames
emitted follow the accumulation rule from that PTS. -/
theorem loop_from_start (iters : List Answers) (d : DecoderAAC)
    (hq : firstExchange d.trace = none) (hmin : d._first_pkt_pts = INT64_MIN)
    (hlast : d._last_pkt_pts = INT64_MIN)
    (hnopts : ∀ a ∈ iters, a.frame_pts = AV_NOPTS_VALUE)
    (pkt : AVPacket) (ret : Int)
    (hfirst : firstExchange (d.loop iters).trace = some (DecEvent.SendPacket pkt ret))
    (hpts : pkt.pts ≠ INT64_MIN) :
    Accumulated pkt.pts pkt.pts (emittedFrames (d.loop iters).trace) := by
  induction iters generalizing d with
  | nil =>
    rw [show d.loop [] = d from rfl, hq] at hfirst
    exact absurd hfirst (by simp)
  | cons a rest ih =>
    have hloop : d.loop (a :: rest) = (d.iteration a).loop rest := rfl
    have ha : a.frame_pts = AV_NOPTS_VALUE := hnopts a (List.mem_cons_self _ _)
    have hrest : ∀ b ∈ rest, b.frame_pts = AV_NOPTS_VALUE :=
      fun b hb => hnopts b (List.mem_cons_of_mem _ hb)
    rw [hloop] at hfirst ⊢
    rcases iteration_from_start d a hq hmin hlast ha with ⟨q1, m1, l1⟩ | ⟨r, f, hc⟩ |
      ⟨pkt1, ret1, hs, hm, hem⟩
    · exact ih (d.iteration a) q1 m1 l1 hrest hfirst
    · have := firstExchange_of_extends (loop_extends rest (d.iteration a)) hc
      rw [this] at hfirst
      exact absurd hfirst (by simp)
    · have h1 := firstExchange_of_extends (loop_extends rest (d.iteration a)) hs
      rw [h1] at hfirst
      simp only [Option.some.injEq, DecEvent.SendPacket.injEq] at hfirst
      obtain ⟨hpk, _⟩ := hfirst
      subst hpk
      have hne : (d.iteration a)._first_pkt_pts ≠ INT64_MIN := by rw [hm]; exact hpts
      obtain ⟨new, hn1, hn2⟩ := loop_accumulated rest (d.iteration a) hne hrest
      rw [hm] at hn2
      rcases hem with ⟨he, hl⟩ | ⟨f, he, hf, hl, hd⟩
      · rw [hn1, he, List.nil_append]
        have hr : (d.iteration a).recoveredPts = pkt1.pts := by
          unfold DecoderAAC.recoveredPts
          rw [if_pos hl, hm]
        rw [hr] at hn2
        exact hn2
      · rw [hn1, he, List.singleton_append]
        have hr : (d.iteration a).recoveredPts =
            if f.pts = INT64_MIN then pkt1.pts else wrap64 (f.pts + f.duration) := by
          unfold DecoderAAC.recoveredPts
          rw [hl, hd, hm]
        rw [hr] at hn2
        exact ⟨hf, hn2⟩

/-- C6: a run of `CodecThread` on a decode stage that has saved no first PTS and
emitted no frame, with `InitCodec` succeeding and the codec session reporting no
PTS for any decoded frame.  When the first exchange of the run is the
submission of an access unit `pkt` (the codec session delivers no frame before
it is sent the first packet), then whatever else the collaborators answer, the
`k`-th frame emitted through `Complete` has the PTS of `pkt` plus the durations
of the frames emitted before it (every such sum being a PTS an `int64_t` holds
other than `AV_NOPTS_VALUE`). -/
theorem recovered_pts_accumulate (d : DecoderAAC) (init : InitAnswers) (iters : List Answers)
    (pkt : AVPacket) (ret : Int)
    (htrace : d.trace = [])
    (hmin : d._first_pkt_pts = INT64_MIN) (hlast : d._last_pkt_pts = INT64_MIN)
    (hinit : (d.InitCodec init).1 = true)
    (hnopts : ∀ a ∈ iters, a.frame_pts = AV_NOPTS_VALUE)
    (hfirst : firstExchange (d.CodecThread init iters).trace = some (DecEvent.SendPacket pkt ret))
    (hrange : ∀ k, k ≤ (emittedFrames (d.CodecThread init iters).trace).length →
      INT64_MIN < pkt.pts +
        (((emittedFrames (d.CodecThread init iters).trace).take k).map MediaFrame.duration).sum ∧
      pkt.pts +
        (((emittedFrames (d.CodecThread init iters).trace).take k).map MediaFrame.duration).sum
        ≤ INT64_MAX) :
    ∀ k f, (emittedFrames (d.CodecThread init iters).trace)[k]? = some f →
      f.pts = pkt.pts +
        (((emittedFrames (d.CodecThread init iters).trace).take k).map MediaFrame.duration).sum := by
  have h0 := (hrange 0 (Nat.zero_le _)).1
  simp only [List.take_zero, List.map_nil, List.sum_nil, add_zero] at h0
  have hstate : (d.InitCodec init).2 = { d with _change_format := false } := by
    unfold DecoderAAC.InitCodec at hinit ⊢
    split_ifs at hinit ⊢
    simp_all
  have hrun : d.CodecThread init iters =
      DecoderAAC.loop { d with _change_format := false, no_data_to_encode := false } iters := by
    unfold DecoderAAC.CodecThread
    simp [hinit, hstate]
  rw [hrun] at hfirst hrange ⊢
  have hacc := loop_from_start iters
    { d with _change_format := false, no_data_to_encode := false }
    (by simp [htrace, firstExchange]) hmin hlast hnopts pkt ret hfirst (ne_of_gt h0)
  exact accumulated_sum pkt.pts _ pkt.pts hacc hrange

/-- Witness of C6: the thread runs on a new decode stage; the first iteration
submits the access unit of `packetA`, PTS 1000, and emits a 1024-tick frame
without a PTS of its own, the second one does the same with `packetB`; the
second frame gets PTS 2024. -/
theorem recovered_pts_accumulate_witness :
    ({ pts := 2024, duration := 1024, width := 0, height := 0 } : MediaFrame).pts =
      1000 + (((emittedFrames (DecoderAAC.construct.CodecThread sampleInit
        [answersA 0 0, answersB 0 0]).trace).take 1).map MediaFrame.duration).sum :=
  recovered_pts_accumulate DecoderAAC.construct sampleInit [answersA 0 0, answersB 0 0]
    { data := [1, 2, 3, 4], size := 4, pts := 1000, dts := 1000, flags := 1, duration := 0 } 0
    (by decide) (by decide) (by decide) (by decide) (by decide) (by decide) (by decide)
    1 { pts := 2024, duration := 1024, width := 0, height := 0 } (by decide)

end OvenMediaEngine
